import Mathlib

/-
Shallow embedding of `src/strassen-algo/matrix-mult.c`.

The C program works on `int` (32-bit two's complement).  Signed overflow in C
is undefined behaviour; the program's own overflow test (`check_overflow`)
presupposes wrap-around semantics ("two same-signed operands whose wrapped sum
has the opposite sign"), so the embedding models every `int` arithmetic
operation as the mathematical operation followed by reduction into
[-2^31, 2^31), written `wrap`.  C's `/` on `int` truncates toward zero and is
modelled by `Int.tdiv`.

Uninitialised stack memory: local `struct matrix` variables in the C code are
read only at cells that were previously written, with one exception: in the
recursive case of `strassen_matrix_multiply` the fields `res.i` and `res.j`
are returned without ever being assigned.  Uninitialised grids are modelled
as the all-zero grid (they are never consulted on defined paths), while the
observable uninitialised offset fields of `res` are kept abstract as the
parameter `u` of `strassenF` (the value the garbage stack slots happen to
hold).  The recursion of `strassen_matrix_multiply` is not structurally
terminating for dimensions that are not powers of two, so the embedding is
fuelled: `RErr.fuelOut` models a computation that is still running (the C
program recurses without reaching a base case).
-/

/-- Largest value of the element type `int` (INT_MAX). -/
def intMax : Int := 2 ^ 31 - 1

/-- Smallest value of the element type `int` (INT_MIN). -/
def intMin : Int := -(2 ^ 31)

/-- The mathematical integer `x` is representable in the element type. -/
def inRange (x : Int) : Prop := intMin ≤ x ∧ x ≤ intMax

instance (x : Int) : Decidable (inRange x) := by unfold inRange; infer_instance

/-- Two's complement wrap-around of a mathematical integer into [-2^31, 2^31).
This is the de-facto result of overflowing `int` arithmetic that the C
program's own checks assume. -/
def wrap (x : Int) : Int := (x + 2 ^ 31) % 2 ^ 32 - 2 ^ 31

/-- `struct matrix` (matrix-mult.c lines 72-76): a NUM_ELEMS x NUM_ELEMS grid
of ints together with the row/column offsets `i`, `j` of the sub-block the
structure currently denotes.  The C array has a fixed capacity of 16x16; the
program only ever indexes within it on defined paths, so the grid is modelled
as a total function. -/
structure matrix where
  m : Nat → Nat → Int
  i : Nat
  j : Nat

/-- Reading cell (r, c) of the block a `matrix` denotes, through its offsets:
`a.m[a.i + r][a.j + c]`, the access pattern used throughout the C code. -/
def readW (a : matrix) (r c : Nat) : Int := a.m (a.i + r) (a.j + c)

/-- Error taxonomy.  `addOverflow`/`mulOverflow` carry the operand pair the C
program prints before `exit(EXIT_FAILURE)` (lines 84, 87, 96, 99).
`InvalidDimension` is the error the specification's taxonomy demands for bad
dimensions; the C source contains no corresponding check, and the embedding
proves it unreachable. -/
inductive Err where
  | addOverflow (a b : Int)
  | mulOverflow (a b : Int)
  | InvalidDimension
deriving DecidableEq

instance {ε α : Type} [DecidableEq ε] [DecidableEq α] : DecidableEq (Except ε α)
  | .error e, .error f =>
    if h : e = f then .isTrue (by rw [h])
    else .isFalse (by intro c; injection c; exact h ‹_›)
  | .error _, .ok _ => .isFalse (by intro c; injection c)
  | .ok _, .error _ => .isFalse (by intro c; injection c)
  | .ok a, .ok b =>
    if h : a = b then .isTrue (by rw [h])
    else .isFalse (by intro c; injection c; exact h ‹_›)

/-- The addition branch of `check_overflow` (lines 81-90): with `s` the
wrapped sum, overflow is reported when two strictly positive operands give a
negative `s` or two strictly negative operands give a positive `s`. -/
def addOverflowChk (a b : Int) : Prop :=
  (a > 0 ∧ b > 0 ∧ wrap (a + b) < 0) ∨ (a < 0 ∧ b < 0 ∧ wrap (a + b) > 0)

instance (a b : Int) : Decidable (addOverflowChk a b) := by
  unfold addOverflowChk; infer_instance

/-- The multiplication branch of `check_overflow` (lines 92-102): with `s`
the wrapped product, overflow is reported when dividing `s` by a nonzero
operand (C truncating division) does not give back the other operand. -/
def mulOverflowChk (a b : Int) : Prop :=
  (a ≠ 0 ∧ Int.tdiv (wrap (a * b)) a ≠ b) ∨
    (b ≠ 0 ∧ Int.tdiv (wrap (a * b)) b ≠ a)

instance (a b : Int) : Decidable (mulOverflowChk a b) := by
  unfold mulOverflowChk; infer_instance

/-- `check_overflow(a, b, add, mult)` (lines 78-103).  The C function calls
`exit(EXIT_FAILURE)` after printing the offending operand pair; the embedding
returns the corresponding error instead. -/
def check_overflow (a b : Int) (addf multf : Bool) : Except Err Unit :=
  if addf ∧ addOverflowChk a b then .error (.addOverflow a b)
  else if multf ∧ mulOverflowChk a b then .error (.mulOverflow a b)
  else .ok ()

/-- Scalar checked addition as performed per cell by `add` (line 125-126):
check first, then store the (wrapped) sum. -/
def checkedAdd (a b : Int) : Except Err Int :=
  (check_overflow a b true false).bind fun _ => .ok (wrap (a + b))

/-- Scalar checked subtraction as performed per cell by `sub` (lines 147-148):
the check receives `a` and the (wrapped) negation of `b`, then the (wrapped)
difference is stored. -/
def checkedSub (a b : Int) : Except Err Int :=
  (check_overflow a (wrap (-b)) true false).bind fun _ => .ok (wrap (a - b))

/-- Scalar checked multiplication as performed for each product of the base
case (e.g. lines 199-200 with 236-237): check first, then the wrapped
product. -/
def checkedMul (a b : Int) : Except Err Int :=
  (check_overflow a b false true).bind fun _ => .ok (wrap (a * b))

/-- `copy_elems_to_quad(m1, m2, num_elems)` (lines 106-112): the nested loop
writes `m1->m[m1->i + r][m1->j + c] = m2->m[m1->i + r][m1->j + c]` for all
`r, c < num_elems`; all write positions are distinct, so the resulting grid
is this overlay. -/
def copy_elems_to_quad (m1 m2 : matrix) (num_elems : Nat) : matrix :=
  { m1 with
    m := fun x y =>
      if m1.i ≤ x ∧ x < m1.i + num_elems ∧ m1.j ≤ y ∧ y < m1.j + num_elems
      then m2.m x y else m1.m x y }

/-- Construction of one quadrant descriptor in the recursive case (lines
285-307): a fresh (uninitialised, modelled all-zero) local `struct matrix`
whose offsets are set to `(io, jo)` and which is then filled by
`copy_elems_to_quad` from the parent matrix. -/
def quad (parent : matrix) (io jo : Nat) (h : Nat) : matrix :=
  copy_elems_to_quad { m := fun _ _ => 0, i := io, j := jo } parent h

/-- The shared cell loop of `add` (lines 123-130) and `sub` (lines 145-153).
The two C loops traverse cells in row-major order (`r` outer, `c` inner);
the traversal is linearised here: step `t` handles `r = t / n`, `c = t % n`,
and `k` cells remain.  On the first cell whose check fails the whole program
exits (modelled as the error); otherwise the (wrapped) sum or difference is
written at `(a.i + r, a.j + c)` — the result is tagged with the offsets of
the first operand (`m.i = a.i; m.j = a.j`). -/
def ewGo (a b : matrix) (issub : Bool) (n : Nat) :
    Nat → Nat → (Nat → Nat → Int) → Except Err (Nat → Nat → Int)
  | _, 0, g => .ok g
  | t, k + 1, g =>
    if addOverflowChk (a.m (a.i + t / n) (a.j + t % n))
        (if issub then wrap (-(b.m (b.i + t / n) (b.j + t % n)))
         else b.m (b.i + t / n) (b.j + t % n)) then
      .error (.addOverflow (a.m (a.i + t / n) (a.j + t % n))
        (if issub then wrap (-(b.m (b.i + t / n) (b.j + t % n)))
         else b.m (b.i + t / n) (b.j + t % n)))
    else
      ewGo a b issub n (t + 1) k
        (fun p q =>
          if p = a.i + t / n ∧ q = a.j + t % n then
            (if issub then
              wrap (a.m (a.i + t / n) (a.j + t % n) -
                b.m (b.i + t / n) (b.j + t % n))
             else
              wrap (a.m (a.i + t / n) (a.j + t % n) +
                b.m (b.i + t / n) (b.j + t % n)))
          else g p q)

/-- `add(a, b, n)` (lines 114-134). -/
def add (a b : matrix) (n : Nat) : Except Err matrix :=
  (ewGo a b false n 0 (n * n) (fun _ _ => 0)).map fun g =>
    { m := g, i := a.i, j := a.j }

/-- `sub(a, b, n)` (lines 136-156). -/
def sub (a b : matrix) (n : Nat) : Except Err matrix :=
  (ewGo a b true n 0 (n * n) (fun _ _ => 0)).map fun g =>
    { m := g, i := a.i, j := a.j }

/-- Strassen error type: either a propagated program error, or exhaustion of
the embedding's fuel, which models a recursion that has not terminated (the
C function has no base case below dimension 2 and recurses forever on
dimensions 0 and 1). -/
inductive RErr where
  | e (x : Err)
  | fuelOut
deriving DecidableEq

/-- Lift a program error. -/
def liftE {α : Type} : Except Err α → Except RErr α
  | .ok a => .ok a
  | .error x => .error (.e x)

/-- The `n == 2` base case of `strassen_matrix_multiply` (lines 172-283):
all overflow checks in source order (lines 197-233), the seven scalar
products m1..m7 (lines 236-249), the assembly checks (lines 255-268) and the
four stores (lines 270-273).  The result `c` is tagged with the first input's
offsets (`c.i = a.i; c.j = a.j`, lines 251-252); its grid is a fresh local
whose only written cells are the four result cells. -/
def strassenBase (a b : matrix) : Except Err matrix :=
  let a00 := a.m a.i a.j
  let a01 := a.m a.i (a.j + 1)
  let a10 := a.m (a.i + 1) a.j
  let a11 := a.m (a.i + 1) (a.j + 1)
  let b00 := b.m b.i b.j
  let b01 := b.m b.i (b.j + 1)
  let b10 := b.m (b.i + 1) b.j
  let b11 := b.m (b.i + 1) (b.j + 1)
  (check_overflow a00 a11 true false).bind fun _ =>
  (check_overflow b00 b11 true false).bind fun _ =>
  (check_overflow (wrap (a00 + a11)) (wrap (b00 + b11)) false true).bind fun _ =>
  (check_overflow a10 a11 true false).bind fun _ =>
  (check_overflow (wrap (a10 + a11)) b00 false true).bind fun _ =>
  (check_overflow b01 (wrap (-b11)) true false).bind fun _ =>
  (check_overflow a00 (wrap (b01 - b11)) false true).bind fun _ =>
  (check_overflow b10 (wrap (-b00)) true false).bind fun _ =>
  (check_overflow a11 (wrap (b10 - b00)) false true).bind fun _ =>
  (check_overflow a00 a01 true false).bind fun _ =>
  (check_overflow (wrap (a00 + a01)) b11 false true).bind fun _ =>
  (check_overflow a10 (wrap (-a00)) true false).bind fun _ =>
  (check_overflow b00 b01 true false).bind fun _ =>
  (check_overflow (wrap (a10 - a00)) (wrap (b00 + b01)) false true).bind fun _ =>
  (check_overflow a01 (wrap (-a11)) true false).bind fun _ =>
  (check_overflow b10 b11 true false).bind fun _ =>
  (check_overflow (wrap (a01 - a11)) (wrap (b10 + b11)) false true).bind fun _ =>
  let m1 := wrap (wrap (a00 + a11) * wrap (b00 + b11))
  let m2 := wrap (wrap (a10 + a11) * b00)
  let m3 := wrap (a00 * wrap (b01 - b11))
  let m4 := wrap (a11 * wrap (b10 - b00))
  let m5 := wrap (wrap (a00 + a01) * b11)
  let m6 := wrap (wrap (a10 - a00) * wrap (b00 + b01))
  let m7 := wrap (wrap (a01 - a11) * wrap (b10 + b11))
  (check_overflow m1 m4 true false).bind fun _ =>
  (check_overflow (wrap (m1 + m4)) (wrap (-m5)) true false).bind fun _ =>
  (check_overflow (wrap (wrap (m1 + m4) - m5)) m7 true false).bind fun _ =>
  (check_overflow m3 m5 true false).bind fun _ =>
  (check_overflow m2 m4 true false).bind fun _ =>
  (check_overflow m1 (wrap (-m2)) true false).bind fun _ =>
  (check_overflow (wrap (m1 - m2)) m3 true false).bind fun _ =>
  (check_overflow (wrap (wrap (m1 - m2) + m3)) m6 true false).bind fun _ =>
  .ok
    { m := fun x y =>
        if x = a.i ∧ y = a.j then wrap (wrap (wrap (m1 + m4) - m5) + m7)
        else if x = a.i ∧ y = a.j + 1 then wrap (m3 + m5)
        else if x = a.i + 1 ∧ y = a.j then wrap (m2 + m4)
        else if x = a.i + 1 ∧ y = a.j + 1 then wrap (wrap (wrap (m1 - m2) + m3) + m6)
        else 0,
      i := a.i, j := a.j }

/-- The recursive case of `strassen_matrix_multiply` (lines 285-351):
quadrant extraction, the seven recursive products M1..M7 in source order,
the four Q blocks, and the assembly of `res`.  The assembly loops write only
`res.m[r][c]` for `r, c < n` reading each Q block through its own offsets;
`res.i` and `res.j` are never assigned, so the returned offsets are the
uninitialised stack values `u`. -/
def strassenRec (u : Nat × Nat) (recur : matrix → matrix → Except RErr matrix)
    (a b : matrix) (n : Nat) : Except RErr matrix :=
  let h := n / 2
  let A00 := quad a a.i a.j h
  let A01 := quad a a.i (a.j + h) h
  let A10 := quad a (a.i + h) a.j h
  let A11 := quad a (a.i + h) (a.j + h) h
  let B00 := quad b b.i b.j h
  let B01 := quad b b.i (b.j + h) h
  let B10 := quad b (b.i + h) b.j h
  let B11 := quad b (b.i + h) (b.j + h) h
  (liftE (add A00 A11 h)).bind fun t1 =>
  (liftE (add B00 B11 h)).bind fun t2 =>
  (recur t1 t2).bind fun M1 =>
  (liftE (add A10 A11 h)).bind fun t3 =>
  (recur t3 B00).bind fun M2 =>
  (liftE (sub B01 B11 h)).bind fun t4 =>
  (recur A00 t4).bind fun M3 =>
  (liftE (sub B10 B00 h)).bind fun t5 =>
  (recur A11 t5).bind fun M4 =>
  (liftE (add A00 A01 h)).bind fun t6 =>
  (recur t6 B11).bind fun M5 =>
  (liftE (sub A10 A00 h)).bind fun t7 =>
  (liftE (add B00 B01 h)).bind fun t8 =>
  (recur t7 t8).bind fun M6 =>
  (liftE (sub A01 A11 h)).bind fun t9 =>
  (liftE (add B10 B11 h)).bind fun t10 =>
  (recur t9 t10).bind fun M7 =>
  (liftE (add M1 M4 h)).bind fun s1 =>
  (liftE (sub s1 M5 h)).bind fun s2 =>
  (liftE (add s2 M7 h)).bind fun Q1 =>
  (liftE (add M3 M5 h)).bind fun Q2 =>
  (liftE (add M2 M4 h)).bind fun Q3 =>
  (liftE (sub M1 M2 h)).bind fun s3 =>
  (liftE (add s3 M3 h)).bind fun s4 =>
  (liftE (add s4 M6 h)).bind fun Q4 =>
  .ok
    { m := fun x y =>
        if x < h ∧ y < h then Q1.m (Q1.i + x) (Q1.j + y)
        else if x < h ∧ h ≤ y ∧ y < n then Q2.m (Q2.i + x) (Q2.j + (y - h))
        else if h ≤ x ∧ x < n ∧ y < h then Q3.m (Q3.i + (x - h)) (Q3.j + y)
        else if h ≤ x ∧ x < n ∧ h ≤ y ∧ y < n then
          Q4.m (Q4.i + (x - h)) (Q4.j + (y - h))
        else 0,
      i := u.1, j := u.2 }

/-- `strassen_matrix_multiply(a, b, n)` (lines 163-352), fuelled. -/
def strassenF (u : Nat × Nat) : Nat → matrix → matrix → Nat → Except RErr matrix
  | 0, _, _, _ => .error .fuelOut
  | fuel + 1, a, b, n =>
    if n = 2 then liftE (strassenBase a b)
    else strassenRec u (fun x y => strassenF u fuel x y (n / 2)) a b n

/-- One result cell of the standard-multiplication cross-check in `main`
(lines 528-537): `m3.m[i][j] = 0;` then `m3.m[i][j] += m1.m[i][k] *
m2.m[k][j]` for `k = 0..n-1`, each step with unchecked (wrapping) `int`
arithmetic, reading both inputs without offsets. -/
def naiveCell (m1 m2 : matrix) (n i j : Nat) : Int :=
  (List.range n).foldl (fun s k => wrap (s + wrap (m1.m i k * m2.m k j))) 0

/-- Element (r, c) of a Strassen result, read the way `main` reads it
(lines 521-523): through the returned offsets, `m3.m[m3.i + i][m3.j + j]`. -/
def resCell (r c : Nat) : Except RErr matrix → Option Int
  | .ok cm => some (cm.m (cm.i + r) (cm.j + c))
  | .error _ => none

/-- Absolute cell (x, y) of a Strassen result's backing grid. -/
def resCellAbs (x y : Nat) : Except RErr matrix → Option Int
  | .ok cm => some (cm.m x y)
  | .error _ => none

/-- The error of a failed Strassen computation, if any. -/
def resErr : Except RErr matrix → Option RErr
  | .ok _ => none
  | .error e => some e

/-- The offset pair a successful elementwise add/sub result is tagged with. -/
def okIJ : Except Err matrix → Option (Nat × Nat)
  | .ok cm => some (cm.i, cm.j)
  | .error _ => none

/-- The offset pair a successful Strassen result is tagged with. -/
def okIJR : Except RErr matrix → Option (Nat × Nat)
  | .ok cm => some (cm.i, cm.j)
  | .error _ => none

/-- An all-zero matrix value at offsets (0,0), the state `main` starts from
(lines 472-474). -/
def zeroM : matrix := { m := fun _ _ => 0, i := 0, j := 0 }

/-- The 2x2 input A = [[1,2],[3,4]] of the specification's base-case test, in
a zeroed 16x16 grid at offsets (0,0). -/
def A2 : matrix :=
  { m := fun r c =>
      if r = 0 ∧ c = 0 then 1 else if r = 0 ∧ c = 1 then 2
      else if r = 1 ∧ c = 0 then 3 else if r = 1 ∧ c = 1 then 4 else 0,
    i := 0, j := 0 }

/-- The 2x2 input B = [[5,6],[7,8]] of the specification's base-case test. -/
def B2 : matrix :=
  { m := fun r c =>
      if r = 0 ∧ c = 0 then 5 else if r = 0 ∧ c = 1 then 6
      else if r = 1 ∧ c = 0 then 7 else if r = 1 ∧ c = 1 then 8 else 0,
    i := 0, j := 0 }

/-- An 8x8 all-ones matrix in a zeroed grid at offsets (0,0). -/
def ones8 : matrix :=
  { m := fun r c => if r < 8 ∧ c < 8 then 1 else 0, i := 0, j := 0 }

/-- A 2x2 matrix whose every entry is 65536 = 2^16, in a zeroed grid. -/
def big2 : matrix :=
  { m := fun r c => if r < 2 ∧ c < 2 then 65536 else 0, i := 0, j := 0 }

/-- A 4x4 all-ones matrix in a zeroed grid at offsets (0,0). -/
def A4 : matrix :=
  { m := fun r c => if r < 4 ∧ c < 4 then 1 else 0, i := 0, j := 0 }

/-- A 2x2 matrix whose every entry is INT_MAX. -/
def bigI : matrix :=
  { m := fun r c => if r < 2 ∧ c < 2 then intMax else 0, i := 0, j := 0 }

/-- A 2x2 matrix whose every entry is -1. -/
def negM : matrix :=
  { m := fun r c => if r < 2 ∧ c < 2 then -1 else 0, i := 0, j := 0 }

/- ### The wrapped-integer model -/

theorem wrap_inRange (x : Int) : inRange (wrap x) := by
  unfold inRange intMin intMax wrap; omega

theorem wrap_eq_self {x : Int} (h : inRange x) : wrap x = x := by
  unfold inRange intMin intMax at h; unfold wrap; omega

theorem wrap_decomp (x : Int) : ∃ t : Int, wrap x = x - 2 ^ 32 * t :=
  ⟨(x + 2 ^ 31) / 2 ^ 32, by unfold wrap; omega⟩

/-- Characterisation of the sign-based addition test on representable
operands: it fires exactly on unrepresentable sums, except for the single
corner `a = b = INT_MIN`, whose wrapped sum is `0` and escapes the strict
sign comparison of line 86. -/
theorem addChk_iff {a b : Int} (ha : inRange a) (hb : inRange b) :
    addOverflowChk a b ↔ ¬ inRange (a + b) ∧ ¬ (a = intMin ∧ b = intMin) := by
  unfold inRange intMin intMax at *; unfold addOverflowChk wrap; omega

theorem not_addChk {a b : Int} (hs : inRange (a + b)) : ¬ addOverflowChk a b := by
  unfold inRange intMin intMax at hs; unfold addOverflowChk wrap; omega

theorem tmod_neg_dividend (s a : Int) : Int.tmod (-s) a = -Int.tmod s a := by
  rw [Int.tmod_def, Int.tmod_def, Int.neg_tdiv]; ring

theorem tmod_abs_lt {a : Int} (s : Int) (ha : a ≠ 0) : |Int.tmod s a| < |a| := by
  have main : ∀ s' : Int, 0 ≤ s' → |Int.tmod s' a| < |a| := by
    intro s' hs'
    have h1 : 0 ≤ Int.tmod s' a := Int.tmod_nonneg a hs'
    rcases lt_or_gt_of_ne ha with hneg | hpos
    · have h3 := Int.tmod_lt_of_pos s' (show (0 : Int) < -a by omega)
      rw [Int.tmod_neg] at h3
      rw [abs_of_nonneg h1, abs_of_neg hneg]
      exact h3
    · have h3 := Int.tmod_lt_of_pos s' hpos
      rw [abs_of_nonneg h1, abs_of_pos hpos]
      exact h3
  rcases le_or_lt 0 s with hs | hs
  · exact main s hs
  · have h := main (-s) (by omega)
    rwa [tmod_neg_dividend, abs_neg] at h

/-- The round-trip multiplication test on representable operands is exact:
it fires if and only if the true product is unrepresentable. -/
theorem mulChk_iff {a b : Int} (ha : inRange a) :
    mulOverflowChk a b ↔ ¬ inRange (a * b) := by
  constructor
  · intro h hin
    rcases h with ⟨ha0, hd⟩ | ⟨hb0, hd⟩
    · exact hd (by rw [wrap_eq_self hin]; exact Int.mul_tdiv_cancel_left b ha0)
    · exact hd (by rw [wrap_eq_self hin, mul_comm]; exact Int.mul_tdiv_cancel_left a hb0)
  · intro hnin
    have ha0 : a ≠ 0 := by
      rintro rfl
      rw [zero_mul] at hnin
      exact hnin (by unfold inRange intMin intMax; omega)
    refine Or.inl ⟨ha0, fun heq => ?_⟩
    have hsr : inRange (wrap (a * b)) := wrap_inRange _
    have hmul := Int.tdiv_add_tmod (wrap (a * b)) a
    rw [heq] at hmul
    have htm : |Int.tmod (wrap (a * b)) a| < |a| := tmod_abs_lt _ ha0
    obtain ⟨t, ht⟩ := wrap_decomp (a * b)
    have hne : wrap (a * b) ≠ a * b := fun hh => hnin (hh ▸ hsr)
    have habs : |a| ≤ 2 ^ 31 := by
      unfold inRange intMin intMax at ha; rw [abs_le]; omega
    have h1 : Int.tmod (wrap (a * b)) a = -(2 ^ 32 * t) := by omega
    have ht0 : t ≠ 0 := by
      intro hh; rw [hh, mul_zero, sub_zero] at ht; exact hne ht
    have h1t : (1 : Int) ≤ |t| := by have := abs_pos.mpr ht0; omega
    have h2 : (2 : Int) ^ 32 ≤ |Int.tmod (wrap (a * b)) a| := by
      rw [h1, abs_neg, abs_mul]
      calc (2 : Int) ^ 32 = 2 ^ 32 * 1 := by ring
        _ ≤ |(2 : Int) ^ 32| * |t| := by
            rw [abs_of_nonneg (by positivity : (0 : Int) ≤ 2 ^ 32)]
            exact mul_le_mul_of_nonneg_left h1t (by positivity)
    have hcontra : (2 : Int) ^ 32 < 2 ^ 31 := lt_of_lt_of_le (lt_of_le_of_lt h2 htm) habs
    norm_num at hcontra

/- ### Scalar checked operations, reduced -/

theorem check_overflow_add_ok {a b : Int} (h : ¬ addOverflowChk a b) :
    check_overflow a b true false = .ok () := by
  simp [check_overflow, h]

theorem check_overflow_add_err {a b : Int} (h : addOverflowChk a b) :
    check_overflow a b true false = .error (.addOverflow a b) := by
  simp [check_overflow, h]

theorem check_overflow_mul_ok {a b : Int} (h : ¬ mulOverflowChk a b) :
    check_overflow a b false true = .ok () := by
  simp [check_overflow, h]

theorem check_overflow_mul_err {a b : Int} (h : mulOverflowChk a b) :
    check_overflow a b false true = .error (.mulOverflow a b) := by
  simp [check_overflow, h]

theorem checkedAdd_of_chk {a b : Int} (h : ¬ addOverflowChk a b) :
    checkedAdd a b = .ok (wrap (a + b)) := by
  rw [checkedAdd, check_overflow_add_ok h]; rfl

theorem checkedAdd_of_bad {a b : Int} (h : addOverflowChk a b) :
    checkedAdd a b = .error (.addOverflow a b) := by
  rw [checkedAdd, check_overflow_add_err h]; rfl

theorem checkedSub_of_chk {a b : Int} (h : ¬ addOverflowChk a (wrap (-b))) :
    checkedSub a b = .ok (wrap (a - b)) := by
  rw [checkedSub, check_overflow_add_ok h]; rfl

theorem checkedSub_of_bad {a b : Int} (h : addOverflowChk a (wrap (-b))) :
    checkedSub a b = .error (.addOverflow a (wrap (-b))) := by
  rw [checkedSub, check_overflow_add_err h]; rfl

theorem checkedMul_of_chk {a b : Int} (h : ¬ mulOverflowChk a b) :
    checkedMul a b = .ok (wrap (a * b)) := by
  rw [checkedMul, check_overflow_mul_ok h]; rfl

theorem checkedMul_of_bad {a b : Int} (h : mulOverflowChk a b) :
    checkedMul a b = .error (.mulOverflow a b) := by
  rw [checkedMul, check_overflow_mul_err h]; rfl

/- ### Row-major linearisation of the elementwise loops -/

theorem rc_lin {n r c : Nat} (hr : r < n) (hc : c < n) :
    (r * n + c) / n = r ∧ (r * n + c) % n = c ∧ r * n + c < n * n := by
  have hn : 0 < n := by omega
  refine ⟨?_, ?_, ?_⟩
  · rw [mul_comm r n, Nat.mul_add_div hn, Nat.div_eq_of_lt hc, Nat.add_zero]
  · rw [mul_comm r n, Nat.mul_add_mod, Nat.mod_eq_of_lt hc]
  · calc r * n + c < r * n + n := by omega
      _ = (r + 1) * n := by ring
      _ ≤ n * n := Nat.mul_le_mul_right n (by omega)

theorem pos_inj {n s s' : Nat} (hne : s ≠ s') (ai aj : Nat) :
    ¬ (ai + s / n = ai + s' / n ∧ aj + s % n = aj + s' % n) := by
  rintro ⟨h1, h2⟩
  have e1 : s / n = s' / n := by omega
  have e2 : s % n = s' % n := by omega
  have d1 := Nat.div_add_mod s n
  have d2 := Nat.div_add_mod s' n
  rw [e1, e2] at d1
  omega

theorem ewGo_ok (a b : matrix) (issub : Bool) (n : Nat) :
    ∀ (k t : Nat) (g : Nat → Nat → Int),
      t + k ≤ n * n →
      (∀ s, t ≤ s → s < t + k →
        ¬ addOverflowChk (readW a (s / n) (s % n))
          (if issub then wrap (-(readW b (s / n) (s % n)))
           else readW b (s / n) (s % n))) →
      ∃ g', ewGo a b issub n t k g = .ok g' ∧
        (∀ s, t ≤ s → s < t + k →
          g' (a.i + s / n) (a.j + s % n) =
            (if issub then wrap (readW a (s / n) (s % n) - readW b (s / n) (s % n))
             else wrap (readW a (s / n) (s % n) + readW b (s / n) (s % n)))) ∧
        (∀ p q, (∀ s, t ≤ s → s < t + k → ¬ (p = a.i + s / n ∧ q = a.j + s % n)) →
          g' p q = g p q) := by
  intro k
  induction k with
  | zero =>
    intro t g _ _
    exact ⟨g, rfl, fun s h1 h2 => absurd h2 (by omega), fun p q _ => rfl⟩
  | succ k ih =>
    intro t g hle hok
    have hchk := hok t (le_refl t) (by omega)
    simp only [readW] at hchk
    rw [ewGo, if_neg hchk]
    obtain ⟨g', hrun, hcells, hpres⟩ :=
      ih (t + 1) _ (by omega) (fun s hs1 hs2 => hok s (by omega) (by omega))
    refine ⟨g', hrun, ?_, ?_⟩
    · intro s h1 h2
      rcases eq_or_lt_of_le h1 with heq | hlt
      · subst heq
        rw [hpres (a.i + t / n) (a.j + t % n)
          (fun s' hs1 hs2 hpq => pos_inj (by omega) a.i a.j hpq)]
        simp [readW]
      · exact hcells s (by omega) (by omega)
    · intro p q hfar
      rw [hpres p q (fun s hs1 hs2 => hfar s (by omega) (by omega))]
      exact if_neg (hfar t (le_refl t) (by omega))

theorem ewGo_err (a b : matrix) (issub : Bool) (n : Nat) :
    ∀ (k t : Nat) (g : Nat → Nat → Int) (s0 : Nat),
      t ≤ s0 → s0 < t + k →
      addOverflowChk (readW a (s0 / n) (s0 % n))
        (if issub then wrap (-(readW b (s0 / n) (s0 % n)))
         else readW b (s0 / n) (s0 % n)) →
      (∀ s, t ≤ s → s < s0 →
        ¬ addOverflowChk (readW a (s / n) (s % n))
          (if issub then wrap (-(readW b (s / n) (s % n)))
           else readW b (s / n) (s % n))) →
      ewGo a b issub n t k g =
        .error (.addOverflow (readW a (s0 / n) (s0 % n))
          (if issub then wrap (-(readW b (s0 / n) (s0 % n)))
           else readW b (s0 / n) (s0 % n))) := by
  intro k
  induction k with
  | zero => intro t g s0 h1 h2; omega
  | succ k ih =>
    intro t g s0 h1 h2 hbad hgood
    rcases eq_or_lt_of_le h1 with rfl | hlt
    · have hbad' := hbad
      simp only [readW] at hbad'
      rw [ewGo, if_pos hbad']
      rfl
    · have hg := hgood t (le_refl t) hlt
      simp only [readW] at hg
      rw [ewGo, if_neg hg]
      exact ih (t + 1) _ s0 (by omega) (by omega) hbad
        (fun s hs1 hs2 => hgood s (by omega) hs2)

theorem div_mod_lt {n s : Nat} (hs : s < n * n) : s / n < n ∧ s % n < n := by
  have hn : 0 < n := by
    rcases Nat.eq_zero_or_pos n with rfl | hn
    · omega
    · exact hn
  exact ⟨(Nat.div_lt_iff_lt_mul hn).mpr hs, Nat.mod_lt _ hn⟩

theorem add_ok {A B : matrix} {n : Nat}
    (hok : ∀ r c, r < n → c < n → ¬ addOverflowChk (readW A r c) (readW B r c)) :
    ∃ M, add A B n = .ok M ∧ M.i = A.i ∧ M.j = A.j ∧
      ∀ r c, r < n → c < n → readW M r c = wrap (readW A r c + readW B r c) := by
  obtain ⟨g', hrun, hcells, -⟩ :=
    ewGo_ok A B false n (n * n) 0 (fun _ _ => 0) (by omega)
      (by
        intro s hs1 hs2
        have hsn := div_mod_lt (show s < n * n by omega)
        simpa using hok (s / n) (s % n) hsn.1 hsn.2)
  refine ⟨{ m := g', i := A.i, j := A.j }, ?_, rfl, rfl, ?_⟩
  · rw [add, hrun]; rfl
  · intro r c hr hc
    obtain ⟨e1, e2, e3⟩ := rc_lin hr hc
    have h := hcells (r * n + c) (by omega) (by omega)
    rw [e1, e2] at h
    simpa [readW] using h

theorem sub_ok {A B : matrix} {n : Nat}
    (hok : ∀ r c, r < n → c < n →
      ¬ addOverflowChk (readW A r c) (wrap (-(readW B r c)))) :
    ∃ M, sub A B n = .ok M ∧ M.i = A.i ∧ M.j = A.j ∧
      ∀ r c, r < n → c < n → readW M r c = wrap (readW A r c - readW B r c) := by
  obtain ⟨g', hrun, hcells, -⟩ :=
    ewGo_ok A B true n (n * n) 0 (fun _ _ => 0) (by omega)
      (by
        intro s hs1 hs2
        have hsn := div_mod_lt (show s < n * n by omega)
        simpa using hok (s / n) (s % n) hsn.1 hsn.2)
  refine ⟨{ m := g', i := A.i, j := A.j }, ?_, rfl, rfl, ?_⟩
  · rw [sub, hrun]; rfl
  · intro r c hr hc
    obtain ⟨e1, e2, e3⟩ := rc_lin hr hc
    have h := hcells (r * n + c) (by omega) (by omega)
    rw [e1, e2] at h
    simpa [readW] using h

theorem add_err {A B : matrix} {n r0 c0 : Nat} (hr0 : r0 < n) (hc0 : c0 < n)
    (hbad : addOverflowChk (readW A r0 c0) (readW B r0 c0))
    (hgood : ∀ r c, r < n → c < n → r * n + c < r0 * n + c0 →
      ¬ addOverflowChk (readW A r c) (readW B r c)) :
    add A B n = .error (.addOverflow (readW A r0 c0) (readW B r0 c0)) := by
  obtain ⟨e1, e2, e3⟩ := rc_lin hr0 hc0
  have h := ewGo_err A B false n (n * n) 0 (fun _ _ => 0) (r0 * n + c0)
    (by omega) (by omega)
    (by rw [e1, e2]; simpa using hbad)
    (by
      intro s hs1 hs2
      have hsn := div_mod_lt (show s < n * n by omega)
      have hdm : s / n * n + s % n = s := by
        rw [mul_comm]; exact Nat.div_add_mod s n
      simpa using hgood (s / n) (s % n) hsn.1 hsn.2 (by omega))
  rw [e1, e2] at h
  rw [add, h]
  simp [Except.map]

theorem sub_err {A B : matrix} {n r0 c0 : Nat} (hr0 : r0 < n) (hc0 : c0 < n)
    (hbad : addOverflowChk (readW A r0 c0) (wrap (-(readW B r0 c0))))
    (hgood : ∀ r c, r < n → c < n → r * n + c < r0 * n + c0 →
      ¬ addOverflowChk (readW A r c) (wrap (-(readW B r c)))) :
    sub A B n = .error (.addOverflow (readW A r0 c0) (wrap (-(readW B r0 c0)))) := by
  obtain ⟨e1, e2, e3⟩ := rc_lin hr0 hc0
  have h := ewGo_err A B true n (n * n) 0 (fun _ _ => 0) (r0 * n + c0)
    (by omega) (by omega)
    (by rw [e1, e2]; simpa using hbad)
    (by
      intro s hs1 hs2
      have hsn := div_mod_lt (show s < n * n by omega)
      have hdm : s / n * n + s % n = s := by
        rw [mul_comm]; exact Nat.div_add_mod s n
      simpa using hgood (s / n) (s % n) hsn.1 hsn.2 (by omega))
  rw [e1, e2] at h
  rw [sub, h]
  simp [Except.map]

/- ### Plumbing for Except chains -/

theorem ok_bind {ε α β : Type} (a : α) (f : α → Except ε β) :
    (Except.ok a : Except ε α).bind f = f a := rfl

theorem except_bind_ok {ε α β : Type} {x : Except ε α} {f : α → Except ε β} {b : β}
    (h : x.bind f = .ok b) : ∃ a, x = .ok a ∧ f a = .ok b := by
  cases x with
  | ok a => exact ⟨a, rfl, h⟩
  | error e => exact absurd h (by simp [Except.bind])

theorem except_bind_error {ε α β : Type} {x : Except ε α} {f : α → Except ε β} {e : ε}
    (h : x.bind f = .error e) : x = .error e ∨ ∃ a, x = .ok a ∧ f a = .error e := by
  cases x with
  | ok a => exact Or.inr ⟨a, rfl, h⟩
  | error e' => exact Or.inl (by simpa [Except.bind] using h)

/- ### Absolute-value bound combinators -/

theorem absAddB {x y Bx By : Int} (hx : |x| ≤ Bx) (hy : |y| ≤ By) :
    |x + y| ≤ Bx + By :=
  le_trans (abs_add x y) (add_le_add hx hy)

theorem absSubB {x y Bx By : Int} (hx : |x| ≤ Bx) (hy : |y| ≤ By) :
    |x - y| ≤ Bx + By := by
  rw [sub_eq_add_neg]
  exact le_trans (abs_add x _) (add_le_add hx (by rwa [abs_neg]))

theorem absMulB {x y Bx By : Int} (hx : |x| ≤ Bx) (hy : |y| ≤ By) :
    |x * y| ≤ Bx * By := by
  rw [abs_mul]
  exact mul_le_mul hx hy (abs_nonneg _) (le_trans (abs_nonneg _) hx)

theorem not_addChk_neg {a b : Int} (hs : inRange (a - b)) : ¬ addOverflowChk a (-b) :=
  not_addChk (by rwa [sub_eq_add_neg] at hs)

theorem notMulChk {x y : Int} (hx : inRange x) (hxy : inRange (x * y)) :
    ¬ mulOverflowChk x y :=
  fun hc => (mulChk_iff hx).mp hc hxy

set_option maxHeartbeats 3200000 in
theorem strassenBase_spec {a b : matrix} {K : Int} (h0K : 0 ≤ K)
    (hA : ∀ r c, r < 2 → c < 2 → |readW a r c| ≤ K)
    (hB : ∀ r c, r < 2 → c < 2 → |readW b r c| ≤ K)
    (hbound : 16 * K ^ 2 ≤ intMax) :
    ∃ C, strassenBase a b = .ok C ∧ C.i = a.i ∧ C.j = a.j ∧
      ∀ r c, r < 2 → c < 2 →
        readW C r c = ∑ t ∈ Finset.range 2, readW a r t * readW b t c := by
  have n1 : |a.m a.i a.j| ≤ K := by simpa [readW] using hA 0 0 (by omega) (by omega)
  have n2 : |a.m a.i (a.j + 1)| ≤ K := by simpa [readW] using hA 0 1 (by omega) (by omega)
  have n3 : |a.m (a.i + 1) a.j| ≤ K := by simpa [readW] using hA 1 0 (by omega) (by omega)
  have n4 : |a.m (a.i + 1) (a.j + 1)| ≤ K := by simpa [readW] using hA 1 1 (by omega) (by omega)
  have n5 : |b.m b.i b.j| ≤ K := by simpa [readW] using hB 0 0 (by omega) (by omega)
  have n6 : |b.m b.i (b.j + 1)| ≤ K := by simpa [readW] using hB 0 1 (by omega) (by omega)
  have n7 : |b.m (b.i + 1) b.j| ≤ K := by simpa [readW] using hB 1 0 (by omega) (by omega)
  have n8 : |b.m (b.i + 1) (b.j + 1)| ≤ K := by simpa [readW] using hB 1 1 (by omega) (by omega)
  have rg : ∀ x B : Int, |x| ≤ B → B ≤ 16 * K ^ 2 → inRange x := by
    intro x B h1 h2
    unfold inRange intMin intMax at *
    rcases abs_le.mp h1 with ⟨hl, hr⟩
    constructor <;> nlinarith
  have q1 : inRange (a.m a.i a.j + a.m (a.i + 1) (a.j + 1)) := rg _ _ (absAddB n1 n4) (by nlinarith)
  have q2 : inRange (b.m b.i b.j + b.m (b.i + 1) (b.j + 1)) := rg _ _ (absAddB n5 n8) (by nlinarith)
  have q3 : inRange (a.m (a.i + 1) a.j + a.m (a.i + 1) (a.j + 1)) := rg _ _ (absAddB n3 n4) (by nlinarith)
  have q4 : inRange (b.m b.i (b.j + 1) - b.m (b.i + 1) (b.j + 1)) := rg _ _ (absSubB n6 n8) (by nlinarith)
  have q5 : inRange (b.m (b.i + 1) b.j - b.m b.i b.j) := rg _ _ (absSubB n7 n5) (by nlinarith)
  have q6 : inRange (a.m a.i a.j + a.m a.i (a.j + 1)) := rg _ _ (absAddB n1 n2) (by nlinarith)
  have q7 : inRange (a.m (a.i + 1) a.j - a.m a.i a.j) := rg _ _ (absSubB n3 n1) (by nlinarith)
  have q8 : inRange (b.m b.i b.j + b.m b.i (b.j + 1)) := rg _ _ (absAddB n5 n6) (by nlinarith)
  have q9 : inRange (a.m a.i (a.j + 1) - a.m (a.i + 1) (a.j + 1)) := rg _ _ (absSubB n2 n4) (by nlinarith)
  have q10 : inRange (b.m (b.i + 1) b.j + b.m (b.i + 1) (b.j + 1)) := rg _ _ (absAddB n7 n8) (by nlinarith)
  have ea1 : inRange (a.m a.i a.j) := rg _ _ n1 (by nlinarith)
  have ea2 : inRange (a.m a.i (a.j + 1)) := rg _ _ n2 (by nlinarith)
  have ea3 : inRange (a.m (a.i + 1) a.j) := rg _ _ n3 (by nlinarith)
  have ea4 : inRange (a.m (a.i + 1) (a.j + 1)) := rg _ _ n4 (by nlinarith)
  have eb1 : inRange (b.m b.i b.j) := rg _ _ n5 (by nlinarith)
  have eb2 : inRange (b.m b.i (b.j + 1)) := rg _ _ n6 (by nlinarith)
  have eb3 : inRange (b.m (b.i + 1) b.j) := rg _ _ n7 (by nlinarith)
  have eb4 : inRange (b.m (b.i + 1) (b.j + 1)) := rg _ _ n8 (by nlinarith)
  have ng1 : inRange (-(b.m (b.i + 1) (b.j + 1))) := by
    have hx : |(-(b.m (b.i + 1) (b.j + 1)))| ≤ K := by rw [abs_neg]; exact n8
    exact rg _ _ hx (by nlinarith)
  have ng2 : inRange (-(b.m b.i b.j)) := by
    have hx : |(-(b.m b.i b.j))| ≤ K := by rw [abs_neg]; exact n5
    exact rg _ _ hx (by nlinarith)
  have ng3 : inRange (-(a.m a.i a.j)) := by
    have hx : |(-(a.m a.i a.j))| ≤ K := by rw [abs_neg]; exact n1
    exact rg _ _ hx (by nlinarith)
  have ng4 : inRange (-(a.m (a.i + 1) (a.j + 1))) := by
    have hx : |(-(a.m (a.i + 1) (a.j + 1)))| ≤ K := by rw [abs_neg]; exact n4
    exact rg _ _ hx (by nlinarith)
  have p1 : |(a.m a.i a.j + a.m (a.i + 1) (a.j + 1)) * (b.m b.i b.j + b.m (b.i + 1) (b.j + 1))| ≤ (K + K) * (K + K) := absMulB (absAddB n1 n4) (absAddB n5 n8)
  have p2 : |(a.m (a.i + 1) a.j + a.m (a.i + 1) (a.j + 1)) * b.m b.i b.j| ≤ (K + K) * K := absMulB (absAddB n3 n4) n5
  have p3 : |a.m a.i a.j * (b.m b.i (b.j + 1) - b.m (b.i + 1) (b.j + 1))| ≤ K * (K + K) := absMulB n1 (absSubB n6 n8)
  have p4 : |a.m (a.i + 1) (a.j + 1) * (b.m (b.i + 1) b.j - b.m b.i b.j)| ≤ K * (K + K) := absMulB n4 (absSubB n7 n5)
  have p5 : |(a.m a.i a.j + a.m a.i (a.j + 1)) * b.m (b.i + 1) (b.j + 1)| ≤ (K + K) * K := absMulB (absAddB n1 n2) n8
  have p6 : |(a.m (a.i + 1) a.j - a.m a.i a.j) * (b.m b.i b.j + b.m b.i (b.j + 1))| ≤ (K + K) * (K + K) := absMulB (absSubB n3 n1) (absAddB n5 n6)
  have p7 : |(a.m a.i (a.j + 1) - a.m (a.i + 1) (a.j + 1)) * (b.m (b.i + 1) b.j + b.m (b.i + 1) (b.j + 1))| ≤ (K + K) * (K + K) := absMulB (absSubB n2 n4) (absAddB n7 n8)
  have r1 : inRange ((a.m a.i a.j + a.m (a.i + 1) (a.j + 1)) * (b.m b.i b.j + b.m (b.i + 1) (b.j + 1))) := rg _ _ p1 (by nlinarith)
  have r2 : inRange ((a.m (a.i + 1) a.j + a.m (a.i + 1) (a.j + 1)) * b.m b.i b.j) := rg _ _ p2 (by nlinarith)
  have r3 : inRange (a.m a.i a.j * (b.m b.i (b.j + 1) - b.m (b.i + 1) (b.j + 1))) := rg _ _ p3 (by nlinarith)
  have r4 : inRange (a.m (a.i + 1) (a.j + 1) * (b.m (b.i + 1) b.j - b.m b.i b.j)) := rg _ _ p4 (by nlinarith)
  have r5 : inRange ((a.m a.i a.j + a.m a.i (a.j + 1)) * b.m (b.i + 1) (b.j + 1)) := rg _ _ p5 (by nlinarith)
  have r6 : inRange ((a.m (a.i + 1) a.j - a.m a.i a.j) * (b.m b.i b.j + b.m b.i (b.j + 1))) := rg _ _ p6 (by nlinarith)
  have r7 : inRange ((a.m a.i (a.j + 1) - a.m (a.i + 1) (a.j + 1)) * (b.m (b.i + 1) b.j + b.m (b.i + 1) (b.j + 1))) := rg _ _ p7 (by nlinarith)
  have ngm2 : inRange (-((a.m (a.i + 1) a.j + a.m (a.i + 1) (a.j + 1)) * b.m b.i b.j)) := by
    have hx : |(-((a.m (a.i + 1) a.j + a.m (a.i + 1) (a.j + 1)) * b.m b.i b.j))| ≤ (K + K) * K := by rw [abs_neg]; exact p2
    exact rg _ _ hx (by nlinarith)
  have ngm5 : inRange (-((a.m a.i a.j + a.m a.i (a.j + 1)) * b.m (b.i + 1) (b.j + 1))) := by
    have hx : |(-((a.m a.i a.j + a.m a.i (a.j + 1)) * b.m (b.i + 1) (b.j + 1)))| ≤ (K + K) * K := by rw [abs_neg]; exact p5
    exact rg _ _ hx (by nlinarith)
  have s1 : inRange ((a.m a.i a.j + a.m (a.i + 1) (a.j + 1)) * (b.m b.i b.j + b.m (b.i + 1) (b.j + 1)) + a.m (a.i + 1) (a.j + 1) * (b.m (b.i + 1) b.j - b.m b.i b.j)) := rg _ _ (absAddB p1 p4) (by nlinarith)
  have s2 : inRange ((a.m a.i a.j + a.m (a.i + 1) (a.j + 1)) * (b.m b.i b.j + b.m (b.i + 1) (b.j + 1)) + a.m (a.i + 1) (a.j + 1) * (b.m (b.i + 1) b.j - b.m b.i b.j) - ((a.m a.i a.j + a.m a.i (a.j + 1)) * b.m (b.i + 1) (b.j + 1))) := rg _ _ (absSubB (absAddB p1 p4) p5) (by nlinarith)
  have s3 : inRange ((a.m a.i a.j + a.m (a.i + 1) (a.j + 1)) * (b.m b.i b.j + b.m (b.i + 1) (b.j + 1)) + a.m (a.i + 1) (a.j + 1) * (b.m (b.i + 1) b.j - b.m b.i b.j) - ((a.m a.i a.j + a.m a.i (a.j + 1)) * b.m (b.i + 1) (b.j + 1)) + (a.m a.i (a.j + 1) - a.m (a.i + 1) (a.j + 1)) * (b.m (b.i + 1) b.j + b.m (b.i + 1) (b.j + 1))) := rg _ _ (absAddB (absSubB (absAddB p1 p4) p5) p7) (by nlinarith)
  have s4 : inRange (a.m a.i a.j * (b.m b.i (b.j + 1) - b.m (b.i + 1) (b.j + 1)) + (a.m a.i a.j + a.m a.i (a.j + 1)) * b.m (b.i + 1) (b.j + 1)) := rg _ _ (absAddB p3 p5) (by nlinarith)
  have s5 : inRange ((a.m (a.i + 1) a.j + a.m (a.i + 1) (a.j + 1)) * b.m b.i b.j + a.m (a.i + 1) (a.j + 1) * (b.m (b.i + 1) b.j - b.m b.i b.j)) := rg _ _ (absAddB p2 p4) (by nlinarith)
  have s6 : inRange ((a.m a.i a.j + a.m (a.i + 1) (a.j + 1)) * (b.m b.i b.j + b.m (b.i + 1) (b.j + 1)) - ((a.m (a.i + 1) a.j + a.m (a.i + 1) (a.j + 1)) * b.m b.i b.j)) := rg _ _ (absSubB p1 p2) (by nlinarith)
  have s7 : inRange ((a.m a.i a.j + a.m (a.i + 1) (a.j + 1)) * (b.m b.i b.j + b.m (b.i + 1) (b.j + 1)) - ((a.m (a.i + 1) a.j + a.m (a.i + 1) (a.j + 1)) * b.m b.i b.j) + a.m a.i a.j * (b.m b.i (b.j + 1) - b.m (b.i + 1) (b.j + 1))) := rg _ _ (absAddB (absSubB p1 p2) p3) (by nlinarith)
  have s8 : inRange ((a.m a.i a.j + a.m (a.i + 1) (a.j + 1)) * (b.m b.i b.j + b.m (b.i + 1) (b.j + 1)) - ((a.m (a.i + 1) a.j + a.m (a.i + 1) (a.j + 1)) * b.m b.i b.j) + a.m a.i a.j * (b.m b.i (b.j + 1) - b.m (b.i + 1) (b.j + 1)) + (a.m (a.i + 1) a.j - a.m a.i a.j) * (b.m b.i b.j + b.m b.i (b.j + 1))) := rg _ _ (absAddB (absAddB (absSubB p1 p2) p3) p6) (by nlinarith)
  have hrun : strassenBase a b = .ok
      { m := fun x y =>
          if x = a.i ∧ y = a.j then (a.m a.i a.j + a.m (a.i + 1) (a.j + 1)) * (b.m b.i b.j + b.m (b.i + 1) (b.j + 1)) + a.m (a.i + 1) (a.j + 1) * (b.m (b.i + 1) b.j - b.m b.i b.j) - ((a.m a.i a.j + a.m a.i (a.j + 1)) * b.m (b.i + 1) (b.j + 1)) + (a.m a.i (a.j + 1) - a.m (a.i + 1) (a.j + 1)) * (b.m (b.i + 1) b.j + b.m (b.i + 1) (b.j + 1))
          else if x = a.i ∧ y = a.j + 1 then a.m a.i a.j * (b.m b.i (b.j + 1) - b.m (b.i + 1) (b.j + 1)) + (a.m a.i a.j + a.m a.i (a.j + 1)) * b.m (b.i + 1) (b.j + 1)
          else if x = a.i + 1 ∧ y = a.j then (a.m (a.i + 1) a.j + a.m (a.i + 1) (a.j + 1)) * b.m b.i b.j + a.m (a.i + 1) (a.j + 1) * (b.m (b.i + 1) b.j - b.m b.i b.j)
          else if x = a.i + 1 ∧ y = a.j + 1 then (a.m a.i a.j + a.m (a.i + 1) (a.j + 1)) * (b.m b.i b.j + b.m (b.i + 1) (b.j + 1)) - ((a.m (a.i + 1) a.j + a.m (a.i + 1) (a.j + 1)) * b.m b.i b.j) + a.m a.i a.j * (b.m b.i (b.j + 1) - b.m (b.i + 1) (b.j + 1)) + (a.m (a.i + 1) a.j - a.m a.i a.j) * (b.m b.i b.j + b.m b.i (b.j + 1))
          else 0,
        i := a.i, j := a.j } := by
    simp only [strassenBase]
    simp only [wrap_eq_self q1, wrap_eq_self q2, wrap_eq_self q3, wrap_eq_self q4,
      wrap_eq_self q5, wrap_eq_self q6, wrap_eq_self q7, wrap_eq_self q8,
      wrap_eq_self q9, wrap_eq_self q10, wrap_eq_self ng1, wrap_eq_self ng2,
      wrap_eq_self ng3, wrap_eq_self ng4]
    simp only [wrap_eq_self r1, wrap_eq_self r2, wrap_eq_self r3, wrap_eq_self r4,
      wrap_eq_self r5, wrap_eq_self r6, wrap_eq_self r7, wrap_eq_self ngm2,
      wrap_eq_self ngm5]
    simp only [wrap_eq_self s1, wrap_eq_self s2, wrap_eq_self s3, wrap_eq_self s4,
      wrap_eq_self s5, wrap_eq_self s6, wrap_eq_self s7, wrap_eq_self s8]
    simp only [check_overflow_add_ok (not_addChk q1), ok_bind,
      check_overflow_add_ok (not_addChk q2),
      check_overflow_mul_ok (notMulChk q1 r1),
      check_overflow_add_ok (not_addChk q3),
      check_overflow_mul_ok (notMulChk q3 r2),
      check_overflow_add_ok (not_addChk_neg q4),
      check_overflow_mul_ok (notMulChk ea1 r3),
      check_overflow_add_ok (not_addChk_neg q5),
      check_overflow_mul_ok (notMulChk ea4 r4),
      check_overflow_add_ok (not_addChk q6),
      check_overflow_mul_ok (notMulChk q6 r5),
      check_overflow_add_ok (not_addChk_neg q7),
      check_overflow_add_ok (not_addChk q8),
      check_overflow_mul_ok (notMulChk q7 r6),
      check_overflow_add_ok (not_addChk_neg q9),
      check_overflow_add_ok (not_addChk q10),
      check_overflow_mul_ok (notMulChk q9 r7),
      check_overflow_add_ok (not_addChk s1),
      check_overflow_add_ok (not_addChk_neg s2),
      check_overflow_add_ok (not_addChk s3),
      check_overflow_add_ok (not_addChk s4),
      check_overflow_add_ok (not_addChk s5),
      check_overflow_add_ok (not_addChk_neg s6),
      check_overflow_add_ok (not_addChk s7),
      check_overflow_add_ok (not_addChk s8)]
  refine ⟨_, hrun, rfl, rfl, ?_⟩
  intro r c hr hc
  have e1 : a.i + 1 ≠ a.i := by omega
  have e2 : a.j + 1 ≠ a.j := by omega
  interval_cases r <;> interval_cases c <;>
    simp [readW, e1, e2, Finset.sum_range_succ] <;> ring

/- ### `InvalidDimension` is unreachable in the code -/

theorem check_no_invalid (a b : Int) (f g : Bool)
    (h : check_overflow a b f g = .error .InvalidDimension) : False := by
  unfold check_overflow at h
  split at h
  · simp at h
  · split at h <;> simp at h

theorem ewGo_no_invalid (a b : matrix) (issub : Bool) (n : Nat) :
    ∀ (k t : Nat) (g : Nat → Nat → Int),
      ewGo a b issub n t k g = .error .InvalidDimension → False := by
  intro k
  induction k with
  | zero => intro t g h; rw [ewGo] at h; simp at h
  | succ k ih =>
    intro t g h
    rw [ewGo] at h
    by_cases hc : addOverflowChk (a.m (a.i + t / n) (a.j + t % n))
        (if issub then wrap (-(b.m (b.i + t / n) (b.j + t % n)))
         else b.m (b.i + t / n) (b.j + t % n))
    · rw [if_pos hc] at h; simp at h
    · rw [if_neg hc] at h; exact ih _ _ h

theorem add_no_invalid {A B : matrix} {n : Nat}
    (h : add A B n = .error .InvalidDimension) : False := by
  rw [add] at h
  cases hEq : ewGo A B false n 0 (n * n) (fun _ _ => 0) with
  | ok g => rw [hEq] at h; simp [Except.map] at h
  | error e =>
    rw [hEq] at h
    simp [Except.map] at h
    exact ewGo_no_invalid A B false n _ _ _ (by rw [hEq, h])

theorem sub_no_invalid {A B : matrix} {n : Nat}
    (h : sub A B n = .error .InvalidDimension) : False := by
  rw [sub] at h
  cases hEq : ewGo A B true n 0 (n * n) (fun _ _ => 0) with
  | ok g => rw [hEq] at h; simp [Except.map] at h
  | error e =>
    rw [hEq] at h
    simp [Except.map] at h
    exact ewGo_no_invalid A B true n _ _ _ (by rw [hEq, h])

theorem liftE_error {α : Type} {x : Except Err α} {e : RErr}
    (h : liftE x = .error e) : ∃ e', x = .error e' ∧ e = .e e' := by
  cases x with
  | ok a => exact absurd h (by simp [liftE])
  | error e' =>
    refine ⟨e', rfl, ?_⟩
    simp only [liftE] at h
    injection h with h'
    exact h'.symm

theorem strassenBase_no_invalid {a b : matrix}
    (h : strassenBase a b = .error .InvalidDimension) : False := by
  simp only [strassenBase] at h
  rcases except_bind_error h with hc | ⟨w0, hw0, h⟩
  · exact check_no_invalid _ _ _ _ hc
  rcases except_bind_error h with hc | ⟨w1, hw1, h⟩
  · exact check_no_invalid _ _ _ _ hc
  rcases except_bind_error h with hc | ⟨w2, hw2, h⟩
  · exact check_no_invalid _ _ _ _ hc
  rcases except_bind_error h with hc | ⟨w3, hw3, h⟩
  · exact check_no_invalid _ _ _ _ hc
  rcases except_bind_error h with hc | ⟨w4, hw4, h⟩
  · exact check_no_invalid _ _ _ _ hc
  rcases except_bind_error h with hc | ⟨w5, hw5, h⟩
  · exact check_no_invalid _ _ _ _ hc
  rcases except_bind_error h with hc | ⟨w6, hw6, h⟩
  · exact check_no_invalid _ _ _ _ hc
  rcases except_bind_error h with hc | ⟨w7, hw7, h⟩
  · exact check_no_invalid _ _ _ _ hc
  rcases except_bind_error h with hc | ⟨w8, hw8, h⟩
  · exact check_no_invalid _ _ _ _ hc
  rcases except_bind_error h with hc | ⟨w9, hw9, h⟩
  · exact check_no_invalid _ _ _ _ hc
  rcases except_bind_error h with hc | ⟨w10, hw10, h⟩
  · exact check_no_invalid _ _ _ _ hc
  rcases except_bind_error h with hc | ⟨w11, hw11, h⟩
  · exact check_no_invalid _ _ _ _ hc
  rcases except_bind_error h with hc | ⟨w12, hw12, h⟩
  · exact check_no_invalid _ _ _ _ hc
  rcases except_bind_error h with hc | ⟨w13, hw13, h⟩
  · exact check_no_invalid _ _ _ _ hc
  rcases except_bind_error h with hc | ⟨w14, hw14, h⟩
  · exact check_no_invalid _ _ _ _ hc
  rcases except_bind_error h with hc | ⟨w15, hw15, h⟩
  · exact check_no_invalid _ _ _ _ hc
  rcases except_bind_error h with hc | ⟨w16, hw16, h⟩
  · exact check_no_invalid _ _ _ _ hc
  rcases except_bind_error h with hc | ⟨w17, hw17, h⟩
  · exact check_no_invalid _ _ _ _ hc
  rcases except_bind_error h with hc | ⟨w18, hw18, h⟩
  · exact check_no_invalid _ _ _ _ hc
  rcases except_bind_error h with hc | ⟨w19, hw19, h⟩
  · exact check_no_invalid _ _ _ _ hc
  rcases except_bind_error h with hc | ⟨w20, hw20, h⟩
  · exact check_no_invalid _ _ _ _ hc
  rcases except_bind_error h with hc | ⟨w21, hw21, h⟩
  · exact check_no_invalid _ _ _ _ hc
  rcases except_bind_error h with hc | ⟨w22, hw22, h⟩
  · exact check_no_invalid _ _ _ _ hc
  rcases except_bind_error h with hc | ⟨w23, hw23, h⟩
  · exact check_no_invalid _ _ _ _ hc
  rcases except_bind_error h with hc | ⟨w24, hw24, h⟩
  · exact check_no_invalid _ _ _ _ hc
  simp at h

theorem strassenF_no_invalid (u : Nat × Nat) :
    ∀ (fuel : Nat) (a b : matrix) (n : Nat),
      strassenF u fuel a b n ≠ .error (.e .InvalidDimension) := by
  intro fuel
  induction fuel with
  | zero => intro a b n h; rw [strassenF] at h; simp at h
  | succ fuel ih =>
    intro a b n h
    rw [strassenF] at h
    split at h
    · obtain ⟨e', hx, he⟩ := liftE_error h
      injection he with he2
      subst he2
      exact strassenBase_no_invalid hx
    · simp only [strassenRec] at h
      rcases except_bind_error h with hc | ⟨w0, hw0, h⟩
      · obtain ⟨e', hx, he⟩ := liftE_error hc
        injection he with he2
        subst he2
        exact add_no_invalid hx
      rcases except_bind_error h with hc | ⟨w1, hw1, h⟩
      · obtain ⟨e', hx, he⟩ := liftE_error hc
        injection he with he2
        subst he2
        exact add_no_invalid hx
      rcases except_bind_error h with hc | ⟨w2, hw2, h⟩
      · exact ih _ _ _ hc
      rcases except_bind_error h with hc | ⟨w3, hw3, h⟩
      · obtain ⟨e', hx, he⟩ := liftE_error hc
        injection he with he2
        subst he2
        exact add_no_invalid hx
      rcases except_bind_error h with hc | ⟨w4, hw4, h⟩
      · exact ih _ _ _ hc
      rcases except_bind_error h with hc | ⟨w5, hw5, h⟩
      · obtain ⟨e', hx, he⟩ := liftE_error hc
        injection he with he2
        subst he2
        exact sub_no_invalid hx
      rcases except_bind_error h with hc | ⟨w6, hw6, h⟩
      · exact ih _ _ _ hc
      rcases except_bind_error h with hc | ⟨w7, hw7, h⟩
      · obtain ⟨e', hx, he⟩ := liftE_error hc
        injection he with he2
        subst he2
        exact sub_no_invalid hx
      rcases except_bind_error h with hc | ⟨w8, hw8, h⟩
      · exact ih _ _ _ hc
      rcases except_bind_error h with hc | ⟨w9, hw9, h⟩
      · obtain ⟨e', hx, he⟩ := liftE_error hc
        injection he with he2
        subst he2
        exact add_no_invalid hx
      rcases except_bind_error h with hc | ⟨w10, hw10, h⟩
      · exact ih _ _ _ hc
      rcases except_bind_error h with hc | ⟨w11, hw11, h⟩
      · obtain ⟨e', hx, he⟩ := liftE_error hc
        injection he with he2
        subst he2
        exact sub_no_invalid hx
      rcases except_bind_error h with hc | ⟨w12, hw12, h⟩
      · obtain ⟨e', hx, he⟩ := liftE_error hc
        injection he with he2
        subst he2
        exact add_no_invalid hx
      rcases except_bind_error h with hc | ⟨w13, hw13, h⟩
      · exact ih _ _ _ hc
      rcases except_bind_error h with hc | ⟨w14, hw14, h⟩
      · obtain ⟨e', hx, he⟩ := liftE_error hc
        injection he with he2
        subst he2
        exact sub_no_invalid hx
      rcases except_bind_error h with hc | ⟨w15, hw15, h⟩
      · obtain ⟨e', hx, he⟩ := liftE_error hc
        injection he with he2
        subst he2
        exact add_no_invalid hx
      rcases except_bind_error h with hc | ⟨w16, hw16, h⟩
      · exact ih _ _ _ hc
      rcases except_bind_error h with hc | ⟨w17, hw17, h⟩
      · obtain ⟨e', hx, he⟩ := liftE_error hc
        injection he with he2
        subst he2
        exact add_no_invalid hx
      rcases except_bind_error h with hc | ⟨w18, hw18, h⟩
      · obtain ⟨e', hx, he⟩ := liftE_error hc
        injection he with he2
        subst he2
        exact sub_no_invalid hx
      rcases except_bind_error h with hc | ⟨w19, hw19, h⟩
      · obtain ⟨e', hx, he⟩ := liftE_error hc
        injection he with he2
        subst he2
        exact add_no_invalid hx
      rcases except_bind_error h with hc | ⟨w20, hw20, h⟩
      · obtain ⟨e', hx, he⟩ := liftE_error hc
        injection he with he2
        subst he2
        exact add_no_invalid hx
      rcases except_bind_error h with hc | ⟨w21, hw21, h⟩
      · obtain ⟨e', hx, he⟩ := liftE_error hc
        injection he with he2
        subst he2
        exact add_no_invalid hx
      rcases except_bind_error h with hc | ⟨w22, hw22, h⟩
      · obtain ⟨e', hx, he⟩ := liftE_error hc
        injection he with he2
        subst he2
        exact sub_no_invalid hx
      rcases except_bind_error h with hc | ⟨w23, hw23, h⟩
      · obtain ⟨e', hx, he⟩ := liftE_error hc
        injection he with he2
        subst he2
        exact add_no_invalid hx
      rcases except_bind_error h with hc | ⟨w24, hw24, h⟩
      · obtain ⟨e', hx, he⟩ := liftE_error hc
        injection he with he2
        subst he2
        exact add_no_invalid hx
      simp at h

/- ### Dimensions 0, 1, 3: the recursion never completes -/

theorem strassenRec_err (u : Nat × Nat) (recur : matrix → matrix → Except RErr matrix)
    (a b : matrix) (n : Nat)
    (hrec : ∀ x y, ∃ e, recur x y = .error e) :
    ∃ e, strassenRec u recur a b n = .error e := by
  simp only [strassenRec]
  cases h1 : add (quad a a.i a.j (n / 2)) (quad a (a.i + n / 2) (a.j + n / 2) (n / 2)) (n / 2) with
  | error e => exact ⟨.e e, rfl⟩
  | ok t1 =>
    cases h2 : add (quad b b.i b.j (n / 2)) (quad b (b.i + n / 2) (b.j + n / 2) (n / 2)) (n / 2) with
    | error e => exact ⟨.e e, rfl⟩
    | ok t2 =>
      obtain ⟨e, he⟩ := hrec t1 t2
      exact ⟨e, by simp [liftE, Except.bind, he]⟩

theorem strassenF_dim0 (u : Nat × Nat) :
    ∀ (fuel : Nat) (a b : matrix), ∃ e, strassenF u fuel a b 0 = .error e := by
  intro fuel
  induction fuel with
  | zero => exact fun a b => ⟨.fuelOut, rfl⟩
  | succ fuel ih =>
    intro a b
    rw [strassenF, if_neg (by omega : ¬ (0 : Nat) = 2)]
    exact strassenRec_err _ _ _ _ _ (fun x y => ih x y)

theorem strassenF_dim1 (u : Nat × Nat) (fuel : Nat) (a b : matrix) :
    ∃ e, strassenF u fuel a b 1 = .error e := by
  cases fuel with
  | zero => exact ⟨.fuelOut, rfl⟩
  | succ fuel =>
    rw [strassenF, if_neg (by omega : ¬ (1 : Nat) = 2)]
    exact strassenRec_err _ _ _ _ _ (fun x y => strassenF_dim0 u fuel x y)

theorem strassenF_dim3 (u : Nat × Nat) (fuel : Nat) (a b : matrix) :
    ∃ e, strassenF u fuel a b 3 = .error e := by
  cases fuel with
  | zero => exact ⟨.fuelOut, rfl⟩
  | succ fuel =>
    rw [strassenF, if_neg (by omega : ¬ (3 : Nat) = 2)]
    exact strassenRec_err _ _ _ _ _ (fun x y => strassenF_dim1 u fuel x y)

/- ### Enhanced elementwise specifications (exact values and bounds) -/

theorem add_spec2 {A B : matrix} {n : Nat} {BA BB : Int}
    (hA : ∀ r c, r < n → c < n → |readW A r c| ≤ BA)
    (hB : ∀ r c, r < n → c < n → |readW B r c| ≤ BB)
    (hsum : ∀ x : Int, |x| ≤ BA + BB → inRange x) :
    ∃ M, add A B n = .ok M ∧ M.i = A.i ∧ M.j = A.j ∧
      (∀ r c, r < n → c < n → readW M r c = readW A r c + readW B r c) ∧
      (∀ r c, r < n → c < n → |readW M r c| ≤ BA + BB) := by
  obtain ⟨M, h1, h2, h3, h4⟩ := add_ok
    (fun r c hr hc =>
      not_addChk (hsum _ (absAddB (hA r c hr hc) (hB r c hr hc))))
  have hval : ∀ r c, r < n → c < n → readW M r c = readW A r c + readW B r c := by
    intro r c hr hc
    rw [h4 r c hr hc,
      wrap_eq_self (hsum _ (absAddB (hA r c hr hc) (hB r c hr hc)))]
  refine ⟨M, h1, h2, h3, hval, ?_⟩
  intro r c hr hc
  rw [hval r c hr hc]
  exact absAddB (hA r c hr hc) (hB r c hr hc)

theorem sub_spec2 {A B : matrix} {n : Nat} {BA BB : Int}
    (hA : ∀ r c, r < n → c < n → |readW A r c| ≤ BA)
    (hB : ∀ r c, r < n → c < n → |readW B r c| ≤ BB)
    (h0A : 0 ≤ BA)
    (hsum : ∀ x : Int, |x| ≤ BA + BB → inRange x) :
    ∃ M, sub A B n = .ok M ∧ M.i = A.i ∧ M.j = A.j ∧
      (∀ r c, r < n → c < n → readW M r c = readW A r c - readW B r c) ∧
      (∀ r c, r < n → c < n → |readW M r c| ≤ BA + BB) := by
  obtain ⟨M, h1, h2, h3, h4⟩ := sub_ok
    (fun r c hr hc => by
      have hynR : inRange (-(readW B r c)) := hsum _ (by
        rw [abs_neg]
        calc |readW B r c| ≤ BB := hB r c hr hc
          _ ≤ BA + BB := by linarith)
      rw [wrap_eq_self hynR]
      exact not_addChk_neg
        (hsum _ (absSubB (hA r c hr hc) (hB r c hr hc))))
  have hval : ∀ r c, r < n → c < n → readW M r c = readW A r c - readW B r c := by
    intro r c hr hc
    rw [h4 r c hr hc,
      wrap_eq_self (hsum _ (absSubB (hA r c hr hc) (hB r c hr hc)))]
  refine ⟨M, h1, h2, h3, hval, ?_⟩
  intro r c hr hc
  rw [hval r c hr hc]
  exact absSubB (hA r c hr hc) (hB r c hr hc)

theorem sum_prod_bound {h : Nat} {f g : Nat → Int} {P Q : Int}
    (hf : ∀ t, t < h → |f t| ≤ P) (hg : ∀ t, t < h → |g t| ≤ Q) :
    |∑ t ∈ Finset.range h, f t * g t| ≤ (h : Int) * (P * Q) := by
  calc |∑ t ∈ Finset.range h, f t * g t|
      ≤ ∑ t ∈ Finset.range h, |f t * g t| := Finset.abs_sum_le_sum_abs _ _
    _ ≤ ∑ _t ∈ Finset.range h, P * Q :=
        Finset.sum_le_sum (fun i hi =>
          absMulB (hf i (Finset.mem_range.mp hi)) (hg i (Finset.mem_range.mp hi)))
    _ = (h : Int) * (P * Q) := by
        rw [Finset.sum_const, Finset.card_range, nsmul_eq_mul]

theorem quad_read (p : matrix) (io jo hh : Nat) (r c : Nat)
    (hr : r < hh) (hc : c < hh) :
    readW (quad p io jo hh) r c = p.m (io + r) (jo + c) := by
  unfold quad copy_elems_to_quad readW
  simp only []
  rw [if_pos (by omega)]

theorem two_K_le_16K2 {K : Int} (h : 0 ≤ K) : 2 * K ≤ 16 * K ^ 2 := by
  rcases eq_or_lt_of_le h with rfl | h1
  · norm_num
  · nlinarith [mul_le_mul_of_nonneg_left (show (1 : Int) ≤ K by omega)
      (le_of_lt h1)]

theorem qshape_le {P K : Int} (h0P : 0 ≤ P) :
    (4 * P * K ^ 2 + 4 * P * K ^ 2 ≤ 16 * P * K ^ 2) ∧
    (4 * P * K ^ 2 + 4 * P * K ^ 2 + 4 * P * K ^ 2 ≤ 16 * P * K ^ 2) ∧
    (4 * P * K ^ 2 + 4 * P * K ^ 2 + 4 * P * K ^ 2 + 4 * P * K ^ 2 ≤
      16 * P * K ^ 2) := by
  have h := mul_nonneg h0P (sq_nonneg K)
  refine ⟨by nlinarith, by nlinarith, by nlinarith⟩

theorem readW_mk (g : Nat → Nat → Int) (r c : Nat) :
    readW { m := g, i := 0, j := 0 } r c = g r c := by
  simp [readW]

set_option maxHeartbeats 4000000 in
theorem strassen_spec :
    ∀ (k : Nat), 1 ≤ k → ∀ (K : Int) (A B : matrix) (fuel : Nat),
      k ≤ fuel → 0 ≤ K →
      (∀ r c, r < 2 ^ k → c < 2 ^ k → |readW A r c| ≤ K) →
      (∀ r c, r < 2 ^ k → c < 2 ^ k → |readW B r c| ≤ K) →
      4 ^ (k + 1) * K ^ 2 ≤ intMax →
      ∃ C, strassenF (0, 0) fuel A B (2 ^ k) = .ok C ∧
        ∀ r c, r < 2 ^ k → c < 2 ^ k →
          readW C r c = ∑ t ∈ Finset.range (2 ^ k), readW A r t * readW B t c := by
  intro k
  induction k with
  | zero => intro h; exact absurd h (by omega)
  | succ k ih =>
    rcases Nat.eq_zero_or_pos k with rfl | hk1
    · intro _ K A B fuel hfuel h0K hA hB hbound
      cases fuel with
      | zero => omega
      | succ f =>
        rw [pow_one] at hA hB ⊢
        have hb16 : 16 * K ^ 2 ≤ intMax := by
          have he : (4 : Int) ^ (0 + 1 + 1) * K ^ 2 = 16 * K ^ 2 := by norm_num
          rw [he] at hbound
          exact hbound
        obtain ⟨C, h1, h2, h3, h4⟩ := strassenBase_spec h0K hA hB hb16
        refine ⟨C, ?_, h4⟩
        rw [strassenF, if_pos rfl, h1]
        rfl
    · intro _ K A B fuel hfuel h0K hA hB hbound
      cases fuel with
      | zero => omega
      | succ f =>
        have hf : k ≤ f := by omega
        have hnn : (2 : Nat) ^ (k + 1) = 2 ^ k + 2 ^ k := by rw [pow_succ]; omega
        have h4n : (4 : Nat) ≤ 2 ^ (k + 1) := by
          calc (4 : Nat) = 2 ^ 2 := by norm_num
            _ ≤ 2 ^ (k + 1) := Nat.pow_le_pow_right (by omega) (by omega)
        have hne2 : ¬ ((2 : Nat) ^ (k + 1) = 2) := by omega
        have hdiv : (2 : Nat) ^ (k + 1) / 2 = 2 ^ k := by
          rw [pow_succ]
          exact Nat.mul_div_cancel _ (by omega)
        have hK2 : (0 : Int) ≤ K ^ 2 := sq_nonneg K
        have h2k0 : (0 : Int) < 2 ^ k := by positivity
        have h2k1 : (1 : Int) ≤ 2 ^ k := by omega
        have h24 : (2 : Int) ^ k ≤ 4 ^ k := pow_le_pow_left₀ (by norm_num) (by norm_num) k
        have hbig : 16 * (2 : Int) ^ k * K ^ 2 ≤ intMax := by
          have he : (4 : Int) ^ (k + 1 + 1) * K ^ 2 = 16 * 4 ^ k * K ^ 2 := by ring
          rw [he] at hbound
          nlinarith [mul_nonneg (mul_nonneg (by norm_num : (0 : Int) ≤ 16)
            (sub_nonneg.mpr h24)) hK2]
        have rg : ∀ x B2 : Int, |x| ≤ B2 → B2 ≤ 16 * (2 : Int) ^ k * K ^ 2 →
            inRange x := by
          intro x B2 hx hB2
          unfold inRange intMax intMin at *
          rcases abs_le.mp hx with ⟨hl, hr⟩
          constructor <;> nlinarith [hbig]
        have hsmall : 2 * K ≤ 16 * (2 : Int) ^ k * K ^ 2 := by
          have h1 := two_K_le_16K2 h0K
          nlinarith [mul_nonneg hK2 (sub_nonneg.mpr h2k1)]
        have hsumK : ∀ x : Int, |x| ≤ K + K → inRange x := by
          intro x hx
          exact rg x (K + K) hx (by linarith)
        have hcast : (((2 : Nat) ^ k : Nat) : Int) = (2 : Int) ^ k := by
          push_cast
          ring
        have hA00r : ∀ r c, r < 2 ^ k → c < 2 ^ k →
            readW (quad A A.i A.j (2 ^ k)) r c = readW A r c := by
          intro r c hr hc
          rw [quad_read _ _ _ _ _ _ hr hc]
          simp [readW, Nat.add_assoc]
        have hA01r : ∀ r c, r < 2 ^ k → c < 2 ^ k →
            readW (quad A A.i (A.j + 2 ^ k) (2 ^ k)) r c = readW A r (2 ^ k + c) := by
          intro r c hr hc
          rw [quad_read _ _ _ _ _ _ hr hc]
          simp [readW, Nat.add_assoc]
        have hA10r : ∀ r c, r < 2 ^ k → c < 2 ^ k →
            readW (quad A (A.i + 2 ^ k) A.j (2 ^ k)) r c = readW A (2 ^ k + r) c := by
          intro r c hr hc
          rw [quad_read _ _ _ _ _ _ hr hc]
          simp [readW, Nat.add_assoc]
        have hA11r : ∀ r c, r < 2 ^ k → c < 2 ^ k →
            readW (quad A (A.i + 2 ^ k) (A.j + 2 ^ k) (2 ^ k)) r c = readW A (2 ^ k + r) (2 ^ k + c) := by
          intro r c hr hc
          rw [quad_read _ _ _ _ _ _ hr hc]
          simp [readW, Nat.add_assoc]
        have hB00r : ∀ r c, r < 2 ^ k → c < 2 ^ k →
            readW (quad B B.i B.j (2 ^ k)) r c = readW B r c := by
          intro r c hr hc
          rw [quad_read _ _ _ _ _ _ hr hc]
          simp [readW, Nat.add_assoc]
        have hB01r : ∀ r c, r < 2 ^ k → c < 2 ^ k →
            readW (quad B B.i (B.j + 2 ^ k) (2 ^ k)) r c = readW B r (2 ^ k + c) := by
          intro r c hr hc
          rw [quad_read _ _ _ _ _ _ hr hc]
          simp [readW, Nat.add_assoc]
        have hB10r : ∀ r c, r < 2 ^ k → c < 2 ^ k →
            readW (quad B (B.i + 2 ^ k) B.j (2 ^ k)) r c = readW B (2 ^ k + r) c := by
          intro r c hr hc
          rw [quad_read _ _ _ _ _ _ hr hc]
          simp [readW, Nat.add_assoc]
        have hB11r : ∀ r c, r < 2 ^ k → c < 2 ^ k →
            readW (quad B (B.i + 2 ^ k) (B.j + 2 ^ k) (2 ^ k)) r c = readW B (2 ^ k + r) (2 ^ k + c) := by
          intro r c hr hc
          rw [quad_read _ _ _ _ _ _ hr hc]
          simp [readW, Nat.add_assoc]
        have hbA00 : ∀ r c, r < 2 ^ k → c < 2 ^ k →
            |readW (quad A A.i A.j (2 ^ k)) r c| ≤ K := by
          intro r c hr hc
          rw [hA00r r c hr hc]
          exact hA r c (by omega) (by omega)
        have hbA01 : ∀ r c, r < 2 ^ k → c < 2 ^ k →
            |readW (quad A A.i (A.j + 2 ^ k) (2 ^ k)) r c| ≤ K := by
          intro r c hr hc
          rw [hA01r r c hr hc]
          exact hA r (2 ^ k + c) (by omega) (by omega)
        have hbA10 : ∀ r c, r < 2 ^ k → c < 2 ^ k →
            |readW (quad A (A.i + 2 ^ k) A.j (2 ^ k)) r c| ≤ K := by
          intro r c hr hc
          rw [hA10r r c hr hc]
          exact hA (2 ^ k + r) c (by omega) (by omega)
        have hbA11 : ∀ r c, r < 2 ^ k → c < 2 ^ k →
            |readW (quad A (A.i + 2 ^ k) (A.j + 2 ^ k) (2 ^ k)) r c| ≤ K := by
          intro r c hr hc
          rw [hA11r r c hr hc]
          exact hA (2 ^ k + r) (2 ^ k + c) (by omega) (by omega)
        have hbB00 : ∀ r c, r < 2 ^ k → c < 2 ^ k →
            |readW (quad B B.i B.j (2 ^ k)) r c| ≤ K := by
          intro r c hr hc
          rw [hB00r r c hr hc]
          exact hB r c (by omega) (by omega)
        have hbB01 : ∀ r c, r < 2 ^ k → c < 2 ^ k →
            |readW (quad B B.i (B.j + 2 ^ k) (2 ^ k)) r c| ≤ K := by
          intro r c hr hc
          rw [hB01r r c hr hc]
          exact hB r (2 ^ k + c) (by omega) (by omega)
        have hbB10 : ∀ r c, r < 2 ^ k → c < 2 ^ k →
            |readW (quad B (B.i + 2 ^ k) B.j (2 ^ k)) r c| ≤ K := by
          intro r c hr hc
          rw [hB10r r c hr hc]
          exact hB (2 ^ k + r) c (by omega) (by omega)
        have hbB11 : ∀ r c, r < 2 ^ k → c < 2 ^ k →
            |readW (quad B (B.i + 2 ^ k) (B.j + 2 ^ k) (2 ^ k)) r c| ≤ K := by
          intro r c hr hc
          rw [hB11r r c hr hc]
          exact hB (2 ^ k + r) (2 ^ k + c) (by omega) (by omega)
        have hbA002 : ∀ r c, r < 2 ^ k → c < 2 ^ k →
            |readW (quad A A.i A.j (2 ^ k)) r c| ≤ 2 * K := by
          intro r c hr hc
          have := hbA00 r c hr hc
          linarith
        have hbA112 : ∀ r c, r < 2 ^ k → c < 2 ^ k →
            |readW (quad A (A.i + 2 ^ k) (A.j + 2 ^ k) (2 ^ k)) r c| ≤ 2 * K := by
          intro r c hr hc
          have := hbA11 r c hr hc
          linarith
        have hbB002 : ∀ r c, r < 2 ^ k → c < 2 ^ k →
            |readW (quad B B.i B.j (2 ^ k)) r c| ≤ 2 * K := by
          intro r c hr hc
          have := hbB00 r c hr hc
          linarith
        have hbB112 : ∀ r c, r < 2 ^ k → c < 2 ^ k →
            |readW (quad B (B.i + 2 ^ k) (B.j + 2 ^ k) (2 ^ k)) r c| ≤ 2 * K := by
          intro r c hr hc
          have := hbB11 r c hr hc
          linarith
        have h02K : (0 : Int) ≤ 2 * K := by linarith
        have hIHb : 4 ^ (k + 1) * (2 * K) ^ 2 ≤ intMax := by
          have he : (4 : Int) ^ (k + 1) * (2 * K) ^ 2 = 4 ^ (k + 1 + 1) * K ^ 2 := by
            ring
          rw [he]
          exact hbound
        obtain ⟨t1, t1eq, t1i, t1j, t1c, t1b⟩ :=
          add_spec2 (n := 2 ^ k) hbA00 hbA11 hsumK
        obtain ⟨t2, t2eq, t2i, t2j, t2c, t2b⟩ :=
          add_spec2 (n := 2 ^ k) hbB00 hbB11 hsumK
        obtain ⟨t3, t3eq, t3i, t3j, t3c, t3b⟩ :=
          add_spec2 (n := 2 ^ k) hbA10 hbA11 hsumK
        obtain ⟨t4, t4eq, t4i, t4j, t4c, t4b⟩ :=
          sub_spec2 (n := 2 ^ k) hbB01 hbB11 h0K hsumK
        obtain ⟨t5, t5eq, t5i, t5j, t5c, t5b⟩ :=
          sub_spec2 (n := 2 ^ k) hbB10 hbB00 h0K hsumK
        obtain ⟨t6, t6eq, t6i, t6j, t6c, t6b⟩ :=
          add_spec2 (n := 2 ^ k) hbA00 hbA01 hsumK
        obtain ⟨t7, t7eq, t7i, t7j, t7c, t7b⟩ :=
          sub_spec2 (n := 2 ^ k) hbA10 hbA00 h0K hsumK
        obtain ⟨t8, t8eq, t8i, t8j, t8c, t8b⟩ :=
          add_spec2 (n := 2 ^ k) hbB00 hbB01 hsumK
        obtain ⟨t9, t9eq, t9i, t9j, t9c, t9b⟩ :=
          sub_spec2 (n := 2 ^ k) hbA01 hbA11 h0K hsumK
        obtain ⟨t10, t10eq, t10i, t10j, t10c, t10b⟩ :=
          add_spec2 (n := 2 ^ k) hbB10 hbB11 hsumK
        have t1b2 : ∀ r c, r < 2 ^ k → c < 2 ^ k → |readW t1 r c| ≤ 2 * K := by
          intro r c hr hc
          have := t1b r c hr hc
          linarith
        have t2b2 : ∀ r c, r < 2 ^ k → c < 2 ^ k → |readW t2 r c| ≤ 2 * K := by
          intro r c hr hc
          have := t2b r c hr hc
          linarith
        have t3b2 : ∀ r c, r < 2 ^ k → c < 2 ^ k → |readW t3 r c| ≤ 2 * K := by
          intro r c hr hc
          have := t3b r c hr hc
          linarith
        have t4b2 : ∀ r c, r < 2 ^ k → c < 2 ^ k → |readW t4 r c| ≤ 2 * K := by
          intro r c hr hc
          have := t4b r c hr hc
          linarith
        have t5b2 : ∀ r c, r < 2 ^ k → c < 2 ^ k → |readW t5 r c| ≤ 2 * K := by
          intro r c hr hc
          have := t5b r c hr hc
          linarith
        have t6b2 : ∀ r c, r < 2 ^ k → c < 2 ^ k → |readW t6 r c| ≤ 2 * K := by
          intro r c hr hc
          have := t6b r c hr hc
          linarith
        have t7b2 : ∀ r c, r < 2 ^ k → c < 2 ^ k → |readW t7 r c| ≤ 2 * K := by
          intro r c hr hc
          have := t7b r c hr hc
          linarith
        have t8b2 : ∀ r c, r < 2 ^ k → c < 2 ^ k → |readW t8 r c| ≤ 2 * K := by
          intro r c hr hc
          have := t8b r c hr hc
          linarith
        have t9b2 : ∀ r c, r < 2 ^ k → c < 2 ^ k → |readW t9 r c| ≤ 2 * K := by
          intro r c hr hc
          have := t9b r c hr hc
          linarith
        have t10b2 : ∀ r c, r < 2 ^ k → c < 2 ^ k → |readW t10 r c| ≤ 2 * K := by
          intro r c hr hc
          have := t10b r c hr hc
          linarith
        obtain ⟨M1, M1eq, M1c⟩ :=
          ih hk1 (2 * K) t1 t2 f hf h02K t1b2 t2b2 hIHb
        obtain ⟨M2, M2eq, M2c⟩ :=
          ih hk1 (2 * K) t3 (quad B B.i B.j (2 ^ k)) f hf h02K t3b2 hbB002 hIHb
        obtain ⟨M3, M3eq, M3c⟩ :=
          ih hk1 (2 * K) (quad A A.i A.j (2 ^ k)) t4 f hf h02K hbA002 t4b2 hIHb
        obtain ⟨M4, M4eq, M4c⟩ :=
          ih hk1 (2 * K) (quad A (A.i + 2 ^ k) (A.j + 2 ^ k) (2 ^ k)) t5 f hf h02K hbA112 t5b2 hIHb
        obtain ⟨M5, M5eq, M5c⟩ :=
          ih hk1 (2 * K) t6 (quad B (B.i + 2 ^ k) (B.j + 2 ^ k) (2 ^ k)) f hf h02K t6b2 hbB112 hIHb
        obtain ⟨M6, M6eq, M6c⟩ :=
          ih hk1 (2 * K) t7 t8 f hf h02K t7b2 t8b2 hIHb
        obtain ⟨M7, M7eq, M7c⟩ :=
          ih hk1 (2 * K) t9 t10 f hf h02K t9b2 t10b2 hIHb
        have M1b : ∀ r c, r < 2 ^ k → c < 2 ^ k →
            |readW M1 r c| ≤ (((2 : Nat) ^ k : Nat) : Int) * (2 * K * (2 * K)) := by
          intro r c hr hc
          rw [M1c r c hr hc]
          exact sum_prod_bound (fun t ht => t1b2 r t hr ht)
            (fun t ht => t2b2 t c ht hc)
        have M2b : ∀ r c, r < 2 ^ k → c < 2 ^ k →
            |readW M2 r c| ≤ (((2 : Nat) ^ k : Nat) : Int) * (2 * K * (2 * K)) := by
          intro r c hr hc
          rw [M2c r c hr hc]
          exact sum_prod_bound (fun t ht => t3b2 r t hr ht)
            (fun t ht => hbB002 t c ht hc)
        have M3b : ∀ r c, r < 2 ^ k → c < 2 ^ k →
            |readW M3 r c| ≤ (((2 : Nat) ^ k : Nat) : Int) * (2 * K * (2 * K)) := by
          intro r c hr hc
          rw [M3c r c hr hc]
          exact sum_prod_bound (fun t ht => hbA002 r t hr ht)
            (fun t ht => t4b2 t c ht hc)
        have M4b : ∀ r c, r < 2 ^ k → c < 2 ^ k →
            |readW M4 r c| ≤ (((2 : Nat) ^ k : Nat) : Int) * (2 * K * (2 * K)) := by
          intro r c hr hc
          rw [M4c r c hr hc]
          exact sum_prod_bound (fun t ht => hbA112 r t hr ht)
            (fun t ht => t5b2 t c ht hc)
        have M5b : ∀ r c, r < 2 ^ k → c < 2 ^ k →
            |readW M5 r c| ≤ (((2 : Nat) ^ k : Nat) : Int) * (2 * K * (2 * K)) := by
          intro r c hr hc
          rw [M5c r c hr hc]
          exact sum_prod_bound (fun t ht => t6b2 r t hr ht)
            (fun t ht => hbB112 t c ht hc)
        have M6b : ∀ r c, r < 2 ^ k → c < 2 ^ k →
            |readW M6 r c| ≤ (((2 : Nat) ^ k : Nat) : Int) * (2 * K * (2 * K)) := by
          intro r c hr hc
          rw [M6c r c hr hc]
          exact sum_prod_bound (fun t ht => t7b2 r t hr ht)
            (fun t ht => t8b2 t c ht hc)
        have M7b : ∀ r c, r < 2 ^ k → c < 2 ^ k →
            |readW M7 r c| ≤ (((2 : Nat) ^ k : Nat) : Int) * (2 * K * (2 * K)) := by
          intro r c hr hc
          rw [M7c r c hr hc]
          exact sum_prod_bound (fun t ht => t9b2 r t hr ht)
            (fun t ht => t10b2 t c ht hc)
        have hBMe : (((2 : Nat) ^ k : Nat) : Int) * (2 * K * (2 * K)) = 4 * (2 : Int) ^ k * K ^ 2 := by
          rw [hcast]
          ring
        have hBM0 : (0 : Int) ≤ (((2 : Nat) ^ k : Nat) : Int) * (2 * K * (2 * K)) := by
          rw [hBMe]
          positivity
        have hqs := qshape_le (K := K) (le_of_lt h2k0)
        have hsumQ2 : ∀ x : Int, |x| ≤ (((2 : Nat) ^ k : Nat) : Int) * (2 * K * (2 * K)) + (((2 : Nat) ^ k : Nat) : Int) * (2 * K * (2 * K)) → inRange x := by
          intro x hx
          refine rg x _ hx ?_
          rw [hBMe]
          exact hqs.1
        have hsumQ3 : ∀ x : Int, |x| ≤ (((2 : Nat) ^ k : Nat) : Int) * (2 * K * (2 * K)) + (((2 : Nat) ^ k : Nat) : Int) * (2 * K * (2 * K)) + (((2 : Nat) ^ k : Nat) : Int) * (2 * K * (2 * K)) → inRange x := by
          intro x hx
          refine rg x _ hx ?_
          rw [hBMe]
          exact hqs.2.1
        have hsumQ4 : ∀ x : Int, |x| ≤ (((2 : Nat) ^ k : Nat) : Int) * (2 * K * (2 * K)) + (((2 : Nat) ^ k : Nat) : Int) * (2 * K * (2 * K)) + (((2 : Nat) ^ k : Nat) : Int) * (2 * K * (2 * K)) + (((2 : Nat) ^ k : Nat) : Int) * (2 * K * (2 * K)) → inRange x := by
          intro x hx
          refine rg x _ hx ?_
          rw [hBMe]
          exact hqs.2.2
        obtain ⟨s1, s1eq, s1i, s1j, s1c, s1b⟩ :=
          add_spec2 (n := 2 ^ k) M1b M4b hsumQ2
        obtain ⟨s2, s2eq, s2i, s2j, s2c, s2b⟩ :=
          sub_spec2 (n := 2 ^ k) s1b M5b (by linarith [hBM0]) hsumQ3
        obtain ⟨Q1, Q1eq, Q1i, Q1j, Q1c, Q1b⟩ :=
          add_spec2 (n := 2 ^ k) s2b M7b hsumQ4
        obtain ⟨Q2, Q2eq, Q2i, Q2j, Q2c, Q2b⟩ :=
          add_spec2 (n := 2 ^ k) M3b M5b hsumQ2
        obtain ⟨Q3, Q3eq, Q3i, Q3j, Q3c, Q3b⟩ :=
          add_spec2 (n := 2 ^ k) M2b M4b hsumQ2
        obtain ⟨s3, s3eq, s3i, s3j, s3c, s3b⟩ :=
          sub_spec2 (n := 2 ^ k) M1b M2b hBM0 hsumQ2
        obtain ⟨s4, s4eq, s4i, s4j, s4c, s4b⟩ :=
          add_spec2 (n := 2 ^ k) s3b M3b hsumQ3
        obtain ⟨Q4, Q4eq, Q4i, Q4j, Q4c, Q4b⟩ :=
          add_spec2 (n := 2 ^ k) s4b M6b hsumQ4
        have hM1F : ∀ r c, r < 2 ^ k → c < 2 ^ k →
            readW M1 r c = ∑ t ∈ Finset.range (2 ^ k), (readW A r t + readW A (2 ^ k + r) (2 ^ k + t)) * (readW B t c + readW B (2 ^ k + t) (2 ^ k + c)) := by
          intro r c hr hc
          rw [M1c r c hr hc]
          refine Finset.sum_congr rfl (fun t ht => ?_)
          have ht2 := Finset.mem_range.mp ht
          rw [t1c r t hr ht2, t2c t c ht2 hc, hA00r r t hr ht2, hA11r r t hr ht2, hB00r t c ht2 hc, hB11r t c ht2 hc]
        have hM2F : ∀ r c, r < 2 ^ k → c < 2 ^ k →
            readW M2 r c = ∑ t ∈ Finset.range (2 ^ k), (readW A (2 ^ k + r) t + readW A (2 ^ k + r) (2 ^ k + t)) * readW B t c := by
          intro r c hr hc
          rw [M2c r c hr hc]
          refine Finset.sum_congr rfl (fun t ht => ?_)
          have ht2 := Finset.mem_range.mp ht
          rw [t3c r t hr ht2, hB00r t c ht2 hc, hA10r r t hr ht2, hA11r r t hr ht2]
        have hM3F : ∀ r c, r < 2 ^ k → c < 2 ^ k →
            readW M3 r c = ∑ t ∈ Finset.range (2 ^ k), readW A r t * (readW B t (2 ^ k + c) - readW B (2 ^ k + t) (2 ^ k + c)) := by
          intro r c hr hc
          rw [M3c r c hr hc]
          refine Finset.sum_congr rfl (fun t ht => ?_)
          have ht2 := Finset.mem_range.mp ht
          rw [t4c t c ht2 hc, hA00r r t hr ht2, hB01r t c ht2 hc, hB11r t c ht2 hc]
        have hM4F : ∀ r c, r < 2 ^ k → c < 2 ^ k →
            readW M4 r c = ∑ t ∈ Finset.range (2 ^ k), readW A (2 ^ k + r) (2 ^ k + t) * (readW B (2 ^ k + t) c - readW B t c) := by
          intro r c hr hc
          rw [M4c r c hr hc]
          refine Finset.sum_congr rfl (fun t ht => ?_)
          have ht2 := Finset.mem_range.mp ht
          rw [t5c t c ht2 hc, hA11r r t hr ht2, hB10r t c ht2 hc, hB00r t c ht2 hc]
        have hM5F : ∀ r c, r < 2 ^ k → c < 2 ^ k →
            readW M5 r c = ∑ t ∈ Finset.range (2 ^ k), (readW A r t + readW A r (2 ^ k + t)) * readW B (2 ^ k + t) (2 ^ k + c) := by
          intro r c hr hc
          rw [M5c r c hr hc]
          refine Finset.sum_congr rfl (fun t ht => ?_)
          have ht2 := Finset.mem_range.mp ht
          rw [t6c r t hr ht2, hB11r t c ht2 hc, hA00r r t hr ht2, hA01r r t hr ht2]
        have hM6F : ∀ r c, r < 2 ^ k → c < 2 ^ k →
            readW M6 r c = ∑ t ∈ Finset.range (2 ^ k), (readW A (2 ^ k + r) t - readW A r t) * (readW B t c + readW B t (2 ^ k + c)) := by
          intro r c hr hc
          rw [M6c r c hr hc]
          refine Finset.sum_congr rfl (fun t ht => ?_)
          have ht2 := Finset.mem_range.mp ht
          rw [t7c r t hr ht2, t8c t c ht2 hc, hA10r r t hr ht2, hA00r r t hr ht2, hB00r t c ht2 hc, hB01r t c ht2 hc]
        have hM7F : ∀ r c, r < 2 ^ k → c < 2 ^ k →
            readW M7 r c = ∑ t ∈ Finset.range (2 ^ k), (readW A r (2 ^ k + t) - readW A (2 ^ k + r) (2 ^ k + t)) * (readW B (2 ^ k + t) c + readW B (2 ^ k + t) (2 ^ k + c)) := by
          intro r c hr hc
          rw [M7c r c hr hc]
          refine Finset.sum_congr rfl (fun t ht => ?_)
          have ht2 := Finset.mem_range.mp ht
          rw [t9c r t hr ht2, t10c t c ht2 hc, hA01r r t hr ht2, hA11r r t hr ht2, hB10r t c ht2 hc, hB11r t c ht2 hc]
        have hrun : strassenF (0, 0) (f + 1) A B (2 ^ (k + 1)) = .ok
            { m := fun x y => if x < 2 ^ k ∧ y < 2 ^ k then Q1.m (Q1.i + x) (Q1.j + y) else if x < 2 ^ k ∧ 2 ^ k ≤ y ∧ y < 2 ^ (k + 1) then Q2.m (Q2.i + x) (Q2.j + (y - 2 ^ k)) else if 2 ^ k ≤ x ∧ x < 2 ^ (k + 1) ∧ y < 2 ^ k then Q3.m (Q3.i + (x - 2 ^ k)) (Q3.j + y) else if 2 ^ k ≤ x ∧ x < 2 ^ (k + 1) ∧ 2 ^ k ≤ y ∧ y < 2 ^ (k + 1) then Q4.m (Q4.i + (x - 2 ^ k)) (Q4.j + (y - 2 ^ k)) else 0, i := 0, j := 0 } := by
          rw [strassenF, if_neg hne2]
          simp only [strassenRec, hdiv]
          simp only [t1eq, t2eq, M1eq, t3eq, M2eq, t4eq, M3eq, t5eq, M4eq, t6eq,
            M5eq, t7eq, t8eq, M6eq, t9eq, t10eq, M7eq, s1eq, s2eq, Q1eq, Q2eq,
            Q3eq, s3eq, s4eq, Q4eq, liftE, ok_bind]
        refine ⟨_, hrun, ?_⟩
        intro r c hr hc
        have hsplit : ∑ t ∈ Finset.range (2 ^ (k + 1)), readW A r t * readW B t c =
            (∑ t ∈ Finset.range (2 ^ k), readW A r t * readW B t c) +
            ∑ t ∈ Finset.range (2 ^ k), readW A r (2 ^ k + t) * readW B (2 ^ k + t) c := by
          rw [hnn, Finset.sum_range_add]
        rw [readW_mk, hsplit]
        by_cases hr1 : r < 2 ^ k
        · by_cases hc1 : c < 2 ^ k
          · rw [if_pos ⟨hr1, hc1⟩]
            have hv : Q1.m (Q1.i + r) (Q1.j + c) = readW Q1 r c := rfl
            rw [hv, Q1c r c hr1 hc1, s2c r c hr1 hc1, s1c r c hr1 hc1,
              hM1F r c hr1 hc1, hM4F r c hr1 hc1, hM5F r c hr1 hc1,
              hM7F r c hr1 hc1,
              ← Finset.sum_add_distrib, ← Finset.sum_sub_distrib,
              ← Finset.sum_add_distrib, ← Finset.sum_add_distrib]
            exact Finset.sum_congr rfl (fun t ht => by ring)
          · rw [if_neg (fun hcon => hc1 hcon.2),
              if_pos ⟨hr1, (by omega : 2 ^ k ≤ c), hc⟩]
            have hv : Q2.m (Q2.i + r) (Q2.j + (c - 2 ^ k)) = readW Q2 r (c - 2 ^ k) := rfl
            have hc2 : c - 2 ^ k < 2 ^ k := by omega
            rw [hv, Q2c r (c - 2 ^ k) hr1 hc2, hM3F r (c - 2 ^ k) hr1 hc2,
              hM5F r (c - 2 ^ k) hr1 hc2]
            simp only [show 2 ^ k + (c - 2 ^ k) = c from by omega]
            rw [← Finset.sum_add_distrib, ← Finset.sum_add_distrib]
            exact Finset.sum_congr rfl (fun t ht => by ring)
        · by_cases hc1 : c < 2 ^ k
          · rw [if_neg (fun hcon => hr1 hcon.1),
              if_neg (fun hcon => hr1 hcon.1),
              if_pos ⟨(by omega : 2 ^ k ≤ r), hr, hc1⟩]
            have hv : Q3.m (Q3.i + (r - 2 ^ k)) (Q3.j + c) = readW Q3 (r - 2 ^ k) c := rfl
            have hr2 : r - 2 ^ k < 2 ^ k := by omega
            rw [hv, Q3c (r - 2 ^ k) c hr2 hc1, hM2F (r - 2 ^ k) c hr2 hc1,
              hM4F (r - 2 ^ k) c hr2 hc1]
            simp only [show 2 ^ k + (r - 2 ^ k) = r from by omega]
            rw [← Finset.sum_add_distrib, ← Finset.sum_add_distrib]
            exact Finset.sum_congr rfl (fun t ht => by ring)
          · rw [if_neg (fun hcon => hr1 hcon.1),
              if_neg (fun hcon => hr1 hcon.1),
              if_neg (fun hcon => hc1 hcon.2.2),
              if_pos ⟨(by omega : 2 ^ k ≤ r), hr, (by omega : 2 ^ k ≤ c), hc⟩]
            have hv : Q4.m (Q4.i + (r - 2 ^ k)) (Q4.j + (c - 2 ^ k)) =
              readW Q4 (r - 2 ^ k) (c - 2 ^ k) := rfl
            have hr2 : r - 2 ^ k < 2 ^ k := by omega
            have hc2 : c - 2 ^ k < 2 ^ k := by omega
            rw [hv, Q4c (r - 2 ^ k) (c - 2 ^ k) hr2 hc2,
              s4c (r - 2 ^ k) (c - 2 ^ k) hr2 hc2,
              s3c (r - 2 ^ k) (c - 2 ^ k) hr2 hc2,
              hM1F (r - 2 ^ k) (c - 2 ^ k) hr2 hc2,
              hM2F (r - 2 ^ k) (c - 2 ^ k) hr2 hc2,
              hM3F (r - 2 ^ k) (c - 2 ^ k) hr2 hc2,
              hM6F (r - 2 ^ k) (c - 2 ^ k) hr2 hc2]
            simp only [show 2 ^ k + (r - 2 ^ k) = r from by omega,
              show 2 ^ k + (c - 2 ^ k) = c from by omega]
            rw [← Finset.sum_sub_distrib, ← Finset.sum_add_distrib,
              ← Finset.sum_add_distrib, ← Finset.sum_add_distrib]
            exact Finset.sum_congr rfl (fun t ht => by ring)

/- ### The unchecked cross-check multiplier of `main` -/

theorem naiveCell_exact (A B : matrix) (i j : Nat) :
    ∀ n : Nat, (∀ t, t < n → inRange (A.m i t * B.m t j)) →
      (∀ m, m ≤ n → inRange (∑ t ∈ Finset.range m, A.m i t * B.m t j)) →
      naiveCell A B n i j = ∑ t ∈ Finset.range n, A.m i t * B.m t j := by
  intro n
  induction n with
  | zero => intro _ _; simp [naiveCell]
  | succ n ihn =>
    intro h1 h2
    unfold naiveCell
    rw [List.range_succ, List.foldl_append]
    have hn := ihn (fun t ht => h1 t (by omega)) (fun m hm => h2 m (by omega))
    unfold naiveCell at hn
    rw [hn]
    simp only [List.foldl_cons, List.foldl_nil]
    rw [wrap_eq_self (h1 n (by omega))]
    rw [show (∑ t ∈ Finset.range n, A.m i t * B.m t j) + A.m i n * B.m n j =
      ∑ t ∈ Finset.range (n + 1), A.m i t * B.m t j from
      (Finset.sum_range_succ _ n).symm]
    exact wrap_eq_self (h2 (n + 1) (le_refl _))

theorem inRange_of_abs_le {x M : Int} (h : |x| ≤ M) (hM : M ≤ intMax) :
    inRange x := by
  rcases abs_le.mp h with ⟨h1, h2⟩
  unfold inRange intMax intMin at *
  constructor <;> omega

/- ### Strassen agrees with the naive product on zero-offset inputs -/

theorem strassen_equiv_naive (k : Nat) (hk : 1 ≤ k) (K : Int) (A B : matrix)
    (hAi : A.i = 0) (hAj : A.j = 0) (hBi : B.i = 0) (hBj : B.j = 0)
    (fuel : Nat) (hfuel : k ≤ fuel) (h0K : 0 ≤ K)
    (hA : ∀ r c, r < 2 ^ k → c < 2 ^ k → |A.m r c| ≤ K)
    (hB : ∀ r c, r < 2 ^ k → c < 2 ^ k → |B.m r c| ≤ K)
    (hbound : 4 ^ (k + 1) * K ^ 2 ≤ intMax) :
    ∃ C, strassenF (0, 0) fuel A B (2 ^ k) = .ok C ∧
      ∀ r c, r < 2 ^ k → c < 2 ^ k → readW C r c = naiveCell A B (2 ^ k) r c := by
  have hA' : ∀ r c, r < 2 ^ k → c < 2 ^ k → |readW A r c| ≤ K := by
    intro r c hr hc
    simp only [readW, hAi, hAj, Nat.zero_add]
    exact hA r c hr hc
  have hB' : ∀ r c, r < 2 ^ k → c < 2 ^ k → |readW B r c| ≤ K := by
    intro r c hr hc
    simp only [readW, hBi, hBj, Nat.zero_add]
    exact hB r c hr hc
  obtain ⟨C, hrun, hcells⟩ := strassen_spec k hk K A B fuel hfuel h0K hA' hB' hbound
  refine ⟨C, hrun, ?_⟩
  intro r c hr hc
  have hK2 : (0 : Int) ≤ K ^ 2 := sq_nonneg K
  have h41 : (4 : Int) ^ (k + 1) = 4 * 4 ^ k := by ring
  have h4k0 : (0 : Int) < 4 ^ k := pow_pos (by norm_num) k
  have h2k4 : (2 : Int) ^ k ≤ 4 ^ (k + 1) := by
    have h1 : (2 : Int) ^ k ≤ 4 ^ k := pow_le_pow_left₀ (by norm_num) (by norm_num) k
    nlinarith [h41, h4k0]
  have h141 : (1 : Int) ≤ 4 ^ (k + 1) := by
    have := pow_pos (show (0 : Int) < 4 by norm_num) (k + 1)
    omega
  have hcast2 : (((2 : Nat) ^ k : Nat) : Int) = (2 : Int) ^ k := by push_cast; ring
  have hKK : K * K = K ^ 2 := by ring
  have hsum_rng : ∀ m : Nat, m ≤ 2 ^ k →
      inRange (∑ t ∈ Finset.range m, A.m r t * B.m t c) := by
    intro m hm
    have hmb : |∑ t ∈ Finset.range m, A.m r t * B.m t c| ≤ (m : Int) * (K * K) :=
      sum_prod_bound (fun t ht => hA r t hr (by omega))
        (fun t ht => hB t c (by omega) hc)
    rw [hKK] at hmb
    have hmc : ((m : Nat) : Int) ≤ (2 : Int) ^ k := by
      rw [← hcast2]
      exact_mod_cast hm
    have s1 : ((m : Nat) : Int) * K ^ 2 ≤ (2 : Int) ^ k * K ^ 2 :=
      mul_le_mul_of_nonneg_right hmc hK2
    have s2 : (2 : Int) ^ k * K ^ 2 ≤ 4 ^ (k + 1) * K ^ 2 :=
      mul_le_mul_of_nonneg_right h2k4 hK2
    exact inRange_of_abs_le (le_trans hmb (le_trans s1 s2)) hbound
  have hprod_rng : ∀ t, t < 2 ^ k → inRange (A.m r t * B.m t c) := by
    intro t ht
    have h1 : |A.m r t * B.m t c| ≤ K * K :=
      absMulB (hA r t hr ht) (hB t c ht hc)
    rw [hKK] at h1
    have s3 : K ^ 2 ≤ 4 ^ (k + 1) * K ^ 2 := le_mul_of_one_le_left hK2 h141
    exact inRange_of_abs_le (le_trans h1 s3) hbound
  rw [hcells r c hr hc,
    naiveCell_exact A B r c (2 ^ k) hprod_rng hsum_rng]
  refine Finset.sum_congr rfl (fun t ht => ?_)
  simp only [readW, hAi, hAj, hBi, hBj, Nat.zero_add]

/- ### Offset tagging of results (shape lemmas) -/

theorem liftE_ok {α : Type} {x : Except Err α} {a : α}
    (h : liftE x = .ok a) : x = .ok a := by
  cases x with
  | ok b => simp only [liftE] at h; injection h with h2; rw [h2]
  | error e => exact absurd h (by simp [liftE])

theorem strassenBase_shape {a b : matrix} {C : matrix}
    (h : strassenBase a b = .ok C) : C.i = a.i ∧ C.j = a.j := by
  simp only [strassenBase] at h
  obtain ⟨w0, hw0, h⟩ := except_bind_ok h
  obtain ⟨w1, hw1, h⟩ := except_bind_ok h
  obtain ⟨w2, hw2, h⟩ := except_bind_ok h
  obtain ⟨w3, hw3, h⟩ := except_bind_ok h
  obtain ⟨w4, hw4, h⟩ := except_bind_ok h
  obtain ⟨w5, hw5, h⟩ := except_bind_ok h
  obtain ⟨w6, hw6, h⟩ := except_bind_ok h
  obtain ⟨w7, hw7, h⟩ := except_bind_ok h
  obtain ⟨w8, hw8, h⟩ := except_bind_ok h
  obtain ⟨w9, hw9, h⟩ := except_bind_ok h
  obtain ⟨w10, hw10, h⟩ := except_bind_ok h
  obtain ⟨w11, hw11, h⟩ := except_bind_ok h
  obtain ⟨w12, hw12, h⟩ := except_bind_ok h
  obtain ⟨w13, hw13, h⟩ := except_bind_ok h
  obtain ⟨w14, hw14, h⟩ := except_bind_ok h
  obtain ⟨w15, hw15, h⟩ := except_bind_ok h
  obtain ⟨w16, hw16, h⟩ := except_bind_ok h
  obtain ⟨w17, hw17, h⟩ := except_bind_ok h
  obtain ⟨w18, hw18, h⟩ := except_bind_ok h
  obtain ⟨w19, hw19, h⟩ := except_bind_ok h
  obtain ⟨w20, hw20, h⟩ := except_bind_ok h
  obtain ⟨w21, hw21, h⟩ := except_bind_ok h
  obtain ⟨w22, hw22, h⟩ := except_bind_ok h
  obtain ⟨w23, hw23, h⟩ := except_bind_ok h
  obtain ⟨w24, hw24, h⟩ := except_bind_ok h
  injection h with h2
  subst h2
  exact ⟨rfl, rfl⟩

theorem strassenRec_shape {u : Nat × Nat} {recur : matrix → matrix → Except RErr matrix}
    {a b : matrix} {n : Nat} {C : matrix}
    (h : strassenRec u recur a b n = .ok C) :
    C.i = u.1 ∧ C.j = u.2 ∧ ∀ x y, n ≤ x ∨ n ≤ y → C.m x y = 0 := by
  simp only [strassenRec] at h
  obtain ⟨v0, hv0, h⟩ := except_bind_ok h
  obtain ⟨v1, hv1, h⟩ := except_bind_ok h
  obtain ⟨v2, hv2, h⟩ := except_bind_ok h
  obtain ⟨v3, hv3, h⟩ := except_bind_ok h
  obtain ⟨v4, hv4, h⟩ := except_bind_ok h
  obtain ⟨v5, hv5, h⟩ := except_bind_ok h
  obtain ⟨v6, hv6, h⟩ := except_bind_ok h
  obtain ⟨v7, hv7, h⟩ := except_bind_ok h
  obtain ⟨v8, hv8, h⟩ := except_bind_ok h
  obtain ⟨v9, hv9, h⟩ := except_bind_ok h
  obtain ⟨v10, hv10, h⟩ := except_bind_ok h
  obtain ⟨v11, hv11, h⟩ := except_bind_ok h
  obtain ⟨v12, hv12, h⟩ := except_bind_ok h
  obtain ⟨v13, hv13, h⟩ := except_bind_ok h
  obtain ⟨v14, hv14, h⟩ := except_bind_ok h
  obtain ⟨v15, hv15, h⟩ := except_bind_ok h
  obtain ⟨v16, hv16, h⟩ := except_bind_ok h
  obtain ⟨v17, hv17, h⟩ := except_bind_ok h
  obtain ⟨v18, hv18, h⟩ := except_bind_ok h
  obtain ⟨v19, hv19, h⟩ := except_bind_ok h
  obtain ⟨v20, hv20, h⟩ := except_bind_ok h
  obtain ⟨v21, hv21, h⟩ := except_bind_ok h
  obtain ⟨v22, hv22, h⟩ := except_bind_ok h
  obtain ⟨v23, hv23, h⟩ := except_bind_ok h
  obtain ⟨v24, hv24, h⟩ := except_bind_ok h
  injection h with h2
  subst h2
  refine ⟨rfl, rfl, ?_⟩
  intro x y hxy
  have hhn : n / 2 ≤ n := Nat.div_le_self n 2
  simp only []
  split_ifs with h1 h2 h3 h4
  · omega
  · omega
  · omega
  · omega
  · rfl

/- ### Checked scalar operations as Except results -/

theorem checkedAdd_ok_iff {a b : Int} :
    (∃ v, checkedAdd a b = .ok v) ↔ ¬ addOverflowChk a b := by
  constructor
  · rintro ⟨v, hv⟩ hc
    rw [checkedAdd_of_bad hc] at hv
    cases hv
  · intro hc
    exact ⟨_, checkedAdd_of_chk hc⟩

theorem checkedAdd_err_iff {a b : Int} {e : Err} :
    checkedAdd a b = .error e ↔
      addOverflowChk a b ∧ e = .addOverflow a b := by
  constructor
  · intro h
    by_cases hc : addOverflowChk a b
    · rw [checkedAdd_of_bad hc] at h
      injection h with h2
      exact ⟨hc, h2.symm⟩
    · rw [checkedAdd_of_chk hc] at h
      cases h
  · rintro ⟨hc, rfl⟩
    exact checkedAdd_of_bad hc

theorem checkedSub_ok_iff {a b : Int} :
    (∃ v, checkedSub a b = .ok v) ↔ ¬ addOverflowChk a (wrap (-b)) := by
  constructor
  · rintro ⟨v, hv⟩ hc
    rw [checkedSub_of_bad hc] at hv
    cases hv
  · intro hc
    exact ⟨_, checkedSub_of_chk hc⟩

theorem checkedSub_err_iff {a b : Int} {e : Err} :
    checkedSub a b = .error e ↔
      addOverflowChk a (wrap (-b)) ∧ e = .addOverflow a (wrap (-b)) := by
  constructor
  · intro h
    by_cases hc : addOverflowChk a (wrap (-b))
    · rw [checkedSub_of_bad hc] at h
      injection h with h2
      exact ⟨hc, h2.symm⟩
    · rw [checkedSub_of_chk hc] at h
      cases h
  · rintro ⟨hc, rfl⟩
    exact checkedSub_of_bad hc

theorem rowmajor_lt {n r c r0 c0 : Nat} (hc : c < n) (hc0 : c0 < n) :
    r * n + c < r0 * n + c0 ↔ (r < r0 ∨ (r = r0 ∧ c < c0)) := by
  constructor
  · intro h
    rcases Nat.lt_or_ge r r0 with h1 | h1
    · exact Or.inl h1
    · rcases Nat.eq_or_lt_of_le h1 with h2 | h2
      · subst h2
        exact Or.inr ⟨rfl, by omega⟩
      · have h3 : (r0 + 1) * n ≤ r * n := Nat.mul_le_mul_right n (by omega)
        have h4 : (r0 + 1) * n = r0 * n + n := by ring
        omega
  · intro h
    rcases h with h | ⟨rfl, h⟩
    · have h3 : (r + 1) * n ≤ r0 * n := Nat.mul_le_mul_right n (by omega)
      have h4 : (r + 1) * n = r * n + n := by ring
      omega
    · omega

/- ### The claims -/

set_option maxRecDepth 100000 in
/-- Claim C1 (code bug, divergence at the failing input): with the
uninitialised `res.i`/`res.j` stack slots holding 1 and 0, multiplying the
8x8 all-ones matrix by itself yields 0 at cell (3,0) of the returned grid,
while the naive triple-loop product of the same inputs is 8 there; the
returned matrix is not equal element-for-element to the naive product. -/
theorem C1_divergence_at_failing_input :
    resCellAbs 3 0 (strassenF (1, 0) 3 ones8 ones8 8) = some 0 ∧
    naiveCell ones8 ones8 8 3 0 = 8 ∧ (0 : Int) ≠ 8 := by
  refine ⟨by decide, by decide, by decide⟩

set_option maxRecDepth 100000 in
/-- Claim C2 (counterexample): at dimension 3 on zero matrices the
multiplier does not fail with `InvalidDimension`; with fuel 100 it is still
recursing (fuel exhaustion models the nonterminating recursion). -/
theorem C2_counterexample :
    resErr (strassenF (0, 0) 100 zeroM zeroM 3) = some .fuelOut := by
  decide

/-- Claim C2 (amended): `strassen_matrix_multiply` performs no dimension
validation at all: no run can fail with `InvalidDimension`, and for the
claim's example dimensions 3 and 0 the call never completes — every run
ends in an overflow exit from a quadrant add or in unbounded recursion
(fuel exhaustion), never in a result and never in `InvalidDimension`. -/
theorem C2_amended :
    (∀ u fuel A B n, strassenF u fuel A B n ≠ .error (.e .InvalidDimension)) ∧
    (∀ u fuel A B, ∃ e, strassenF u fuel A B 3 = .error e) ∧
    (∀ u fuel A B, ∃ e, strassenF u fuel A B 0 = .error e) :=
  ⟨fun u fuel A B n => strassenF_no_invalid u fuel A B n,
   fun u fuel A B => strassenF_dim3 u fuel A B,
   fun u fuel A B => strassenF_dim0 u fuel A B⟩

/-- Claim C3 (counterexample): at a = b = INT_MIN the mathematical sum is
not representable, yet checked addition does not fail: the wrapped sum is 0,
which escapes the strict sign test, and the wrapped value 0 is returned. -/
theorem C3_counterexample :
    checkedAdd intMin intMin = .ok 0 ∧ ¬ inRange (intMin + intMin) := by
  refine ⟨by decide, by decide⟩

/-- Claim C3 (amended): for representable operands, checked addition fails
(with the operand pair) iff the sum is unrepresentable AND the operands are
not both INT_MIN; on success it returns the exact sum, except in the single
escaped corner a = b = INT_MIN where it returns the wrapped sum 0. -/
theorem C3_amended (a b : Int) (ha : inRange a) (hb : inRange b) :
    (checkedAdd a b = .error (.addOverflow a b) ↔
      ¬ inRange (a + b) ∧ ¬ (a = intMin ∧ b = intMin)) ∧
    (inRange (a + b) → checkedAdd a b = .ok (a + b)) ∧
    (a = intMin → b = intMin → checkedAdd a b = .ok 0) := by
  have hiff := addChk_iff ha hb
  refine ⟨⟨?_, ?_⟩, ?_, ?_⟩
  · intro h
    by_cases hc : addOverflowChk a b
    · exact hiff.mp hc
    · rw [checkedAdd_of_chk hc] at h
      cases h
  · intro h
    exact checkedAdd_of_bad (hiff.mpr h)
  · intro hs
    rw [checkedAdd_of_chk (not_addChk hs), wrap_eq_self hs]
  · rintro rfl rfl
    decide

/-- Witness for C3_amended at a = 2, b = 3. -/
theorem C3_witness :
    (checkedAdd 2 3 = .error (.addOverflow 2 3) ↔
      ¬ inRange ((2 : Int) + 3) ∧ ¬ ((2 : Int) = intMin ∧ (3 : Int) = intMin)) ∧
    (inRange ((2 : Int) + 3) → checkedAdd 2 3 = .ok (2 + 3)) ∧
    ((2 : Int) = intMin → (3 : Int) = intMin → checkedAdd 2 3 = .ok 0) :=
  C3_amended 2 3 (by decide) (by decide)

/-- Claim C4 (code bug, divergence at the failing input): `sub`'s check
receives the wrapped negation of b; for b = INT_MIN the negation wraps back
to INT_MIN and, with a = 0, the sign test sees (0, INT_MIN) and reports
nothing, so the unrepresentable difference 0 - INT_MIN is silently returned
as the wrapped value INT_MIN instead of an overflow failure. -/
theorem C4_divergence_at_failing_input :
    checkedSub 0 intMin = .ok intMin ∧ ¬ inRange (0 - intMin) := by
  refine ⟨by decide, by decide⟩

/-- Claim C5: for representable operands, checked multiplication fails with
the operand pair iff the exact product is unrepresentable (the round-trip
division test is exact); otherwise it returns the exact product. -/
theorem C5_checked_mul (a b : Int) (ha : inRange a) (hb : inRange b) :
    (checkedMul a b = .error (.mulOverflow a b) ↔ ¬ inRange (a * b)) ∧
    (inRange (a * b) → checkedMul a b = .ok (a * b)) := by
  have hiff := mulChk_iff (b := b) ha
  refine ⟨⟨?_, ?_⟩, ?_⟩
  · intro h
    by_cases hc : mulOverflowChk a b
    · exact hiff.mp hc
    · rw [checkedMul_of_chk hc] at h
      cases h
  · intro h
    exact checkedMul_of_bad (hiff.mpr h)
  · intro hs
    rw [checkedMul_of_chk (fun hc => (hiff.mp hc) hs), wrap_eq_self hs]

/-- Witness for C5_checked_mul at a = 6, b = 7. -/
theorem C5_witness :
    (checkedMul 6 7 = .error (.mulOverflow 6 7) ↔ ¬ inRange ((6 : Int) * 7)) ∧
    (inRange ((6 : Int) * 7) → checkedMul 6 7 = .ok (6 * 7)) :=
  C5_checked_mul 6 7 (by decide) (by decide)

/-- Claim C6: for A = [[1,2],[3,4]] and B = [[5,6],[7,8]] the base case
succeeds and returns exactly [[19,22],[43,50]], read the way `main` reads
the result. -/
theorem C6_base_case_exact :
    resCell 0 0 (strassenF (0, 0) 1 A2 B2 2) = some 19 ∧
    resCell 0 1 (strassenF (0, 0) 1 A2 B2 2) = some 22 ∧
    resCell 1 0 (strassenF (0, 0) 1 A2 B2 2) = some 43 ∧
    resCell 1 1 (strassenF (0, 0) 1 A2 B2 2) = some 50 := by
  refine ⟨by decide, by decide, by decide, by decide⟩

/-- Claim C7: for every pair of views and size, `add`/`sub` either return
the matrix whose cell (r,c) is the checked sum/difference of the
corresponding cells, tagged with the first operand's offsets, or fail with
the error of the first offending cell in row-major traversal order (no
later cell contributes). -/
theorem C7_elementwise :
    ∀ (A B : matrix) (n : Nat),
      ((∀ r c, r < n → c < n →
          ∃ v, checkedAdd (readW A r c) (readW B r c) = .ok v) →
        ∃ M, add A B n = .ok M ∧ M.i = A.i ∧ M.j = A.j ∧
          ∀ r c, r < n → c < n →
            checkedAdd (readW A r c) (readW B r c) = .ok (readW M r c)) ∧
      (∀ r0 c0 e, r0 < n → c0 < n →
        checkedAdd (readW A r0 c0) (readW B r0 c0) = .error e →
        (∀ r c, r < n → c < n → (r < r0 ∨ (r = r0 ∧ c < c0)) →
          ∃ v, checkedAdd (readW A r c) (readW B r c) = .ok v) →
        add A B n = .error e) ∧
      ((∀ r c, r < n → c < n →
          ∃ v, checkedSub (readW A r c) (readW B r c) = .ok v) →
        ∃ M, sub A B n = .ok M ∧ M.i = A.i ∧ M.j = A.j ∧
          ∀ r c, r < n → c < n →
            checkedSub (readW A r c) (readW B r c) = .ok (readW M r c)) ∧
      (∀ r0 c0 e, r0 < n → c0 < n →
        checkedSub (readW A r0 c0) (readW B r0 c0) = .error e →
        (∀ r c, r < n → c < n → (r < r0 ∨ (r = r0 ∧ c < c0)) →
          ∃ v, checkedSub (readW A r c) (readW B r c) = .ok v) →
        sub A B n = .error e) := by
  intro A B n
  refine ⟨?_, ?_, ?_, ?_⟩
  · intro h
    obtain ⟨M, h1, h2, h3, h4⟩ :=
      add_ok (fun r c hr hc => checkedAdd_ok_iff.mp (h r c hr hc))
    refine ⟨M, h1, h2, h3, fun r c hr hc => ?_⟩
    rw [h4 r c hr hc]
    exact checkedAdd_of_chk (checkedAdd_ok_iff.mp (h r c hr hc))
  · intro r0 c0 e hr0 hc0 hbad hgood
    obtain ⟨hchk, rfl⟩ := checkedAdd_err_iff.mp hbad
    exact add_err hr0 hc0 hchk
      (fun r c hr hc hlin =>
        checkedAdd_ok_iff.mp
          (hgood r c hr hc ((rowmajor_lt hc hc0).mp hlin)))
  · intro h
    obtain ⟨M, h1, h2, h3, h4⟩ :=
      sub_ok (fun r c hr hc => checkedSub_ok_iff.mp (h r c hr hc))
    refine ⟨M, h1, h2, h3, fun r c hr hc => ?_⟩
    rw [h4 r c hr hc]
    exact checkedSub_of_chk (checkedSub_ok_iff.mp (h r c hr hc))
  · intro r0 c0 e hr0 hc0 hbad hgood
    obtain ⟨hchk, rfl⟩ := checkedSub_err_iff.mp hbad
    exact sub_err hr0 hc0 hchk
      (fun r c hr hc hlin =>
        checkedSub_ok_iff.mp
          (hgood r c hr hc ((rowmajor_lt hc hc0).mp hlin)))

/-- Witness for C7_elementwise: a succeeding add and sub on the 2x2 test
matrices, a failing add on an all-INT_MAX matrix (first cell reported),
and a failing sub a - b with a = INT_MAX, b = -1. -/
theorem C7_witness :
    (∃ M, add A2 B2 2 = .ok M ∧ M.i = A2.i ∧ M.j = A2.j ∧
      ∀ r c, r < 2 → c < 2 →
        checkedAdd (readW A2 r c) (readW B2 r c) = .ok (readW M r c)) ∧
    add bigI bigI 2 = .error (.addOverflow (readW bigI 0 0) (readW bigI 0 0)) ∧
    (∃ M, sub A2 B2 2 = .ok M ∧ M.i = A2.i ∧ M.j = A2.j ∧
      ∀ r c, r < 2 → c < 2 →
        checkedSub (readW A2 r c) (readW B2 r c) = .ok (readW M r c)) ∧
    sub bigI negM 2 =
      .error (.addOverflow (readW bigI 0 0) (wrap (-(readW negM 0 0)))) := by
  refine ⟨?_, ?_, ?_, ?_⟩
  · exact (C7_elementwise A2 B2 2).1
      (by intro r c hr hc; interval_cases r <;> interval_cases c <;> exact ⟨_, rfl⟩)
  · exact (C7_elementwise bigI bigI 2).2.1 0 0 _ (by omega) (by omega)
      (by decide) (fun r c hr hc hlex => absurd hlex (by omega))
  · exact (C7_elementwise A2 B2 2).2.2.1
      (by intro r c hr hc; interval_cases r <;> interval_cases c <;> exact ⟨_, rfl⟩)
  · exact (C7_elementwise bigI negM 2).2.2.2 0 0 _ (by omega) (by omega)
      (by decide) (fun r c hr hc hlex => absurd hlex (by omega))

/-- Claim C8 (counterexample): the naive cross-check in `main` is not
overflow-checked: with all entries 65536 the very first product step
65536 * 65536 is unrepresentable, yet the loop completes and returns the
silently wrapped value 0 at cell (0,0) instead of failing. -/
theorem C8_counterexample :
    big2.m 0 0 = 65536 ∧ naiveCell big2 big2 2 0 0 = 0 ∧
    ¬ inRange ((65536 : Int) * 65536) := by
  refine ⟨by decide, by decide, by decide⟩

/-- Claim C8 (amended): the naive triple-loop accumulation of `main` is
unchecked wrapping arithmetic; it never fails, and it equals the exact
mathematical sum of products precisely when every product and every partial
sum along the way is representable. -/
theorem C8_amended (A B : matrix) (n i j : Nat)
    (hprod : ∀ t, t < n → inRange (A.m i t * B.m t j))
    (hpart : ∀ m, m ≤ n → inRange (∑ t ∈ Finset.range m, A.m i t * B.m t j)) :
    naiveCell A B n i j = ∑ t ∈ Finset.range n, A.m i t * B.m t j :=
  naiveCell_exact A B i j n hprod hpart

/-- Witness for C8_amended on the 2x2 test matrices. -/
theorem C8_witness :
    naiveCell A2 B2 2 0 0 = ∑ t ∈ Finset.range 2, A2.m 0 t * B2.m t 0 :=
  C8_amended A2 B2 2 0 0 (by decide) (by decide)

/-- Claim C9: extracting the top-left quadrant twice (as the recursive case
does, with `copy_elems_to_quad` into a fresh descriptor keeping the parent's
offsets) agrees cell-for-cell with directly addressing the top-left
(n/4)x(n/4) block of the original matrix, and the composed view keeps the
original offsets. -/
theorem C9_quad_composition (a : matrix) (n k r c : Nat)
    (hn : n = 2 ^ k) (h4 : 4 ≤ n) (hr : r < n / 4) (hc : c < n / 4) :
    readW (quad (quad a a.i a.j (n / 2)) a.i a.j (n / 2 / 2)) r c =
      readW a r c ∧
    (quad (quad a a.i a.j (n / 2)) a.i a.j (n / 2 / 2)).i = a.i ∧
    (quad (quad a a.i a.j (n / 2)) a.i a.j (n / 2 / 2)).j = a.j := by
  refine ⟨?_, rfl, rfl⟩
  rw [quad_read _ _ _ _ _ _ (by omega) (by omega)]
  show (quad a a.i a.j (n / 2)).m (a.i + r) (a.j + c) = readW a r c
  unfold quad copy_elems_to_quad
  simp only []
  rw [if_pos (by omega)]
  rfl

/-- Witness for C9_quad_composition at n = 4 on the all-ones matrix. -/
theorem C9_witness :
    readW (quad (quad A4 A4.i A4.j (4 / 2)) A4.i A4.j (4 / 2 / 2)) 0 0 =
      readW A4 0 0 ∧
    (quad (quad A4 A4.i A4.j (4 / 2)) A4.i A4.j (4 / 2 / 2)).i = A4.i ∧
    (quad (quad A4 A4.i A4.j (4 / 2)) A4.i A4.j (4 / 2 / 2)).j = A4.j :=
  C9_quad_composition A4 4 2 0 0 (by norm_num) (by norm_num) (by norm_num)
    (by norm_num)

/-- Claim C10: result offset tagging is not uniform: `add`/`sub` tag their
result with the first operand's offsets; the n = 2 base case tags with the
first input's offsets; the recursive case writes the assembled result into
rows and columns [0,n) of the backing grid (cells outside stay at the
fresh local's value 0) and returns whatever the uninitialised `res.i`,
`res.j` stack slots held, independent of the inputs' offsets. -/
theorem C10_offsets :
    (∀ A B n, okIJ (add A B n) = none ∨ okIJ (add A B n) = some (A.i, A.j)) ∧
    (∀ A B n, okIJ (sub A B n) = none ∨ okIJ (sub A B n) = some (A.i, A.j)) ∧
    (∀ u fuel A B, okIJR (strassenF u fuel A B 2) = none ∨
      okIJR (strassenF u fuel A B 2) = some (A.i, A.j)) ∧
    (∀ u fuel A B n, 2 < n →
      (okIJR (strassenF u fuel A B n) = none ∨
        okIJR (strassenF u fuel A B n) = some (u.1, u.2)) ∧
      (∀ x y, n ≤ x ∨ n ≤ y →
        resCellAbs x y (strassenF u fuel A B n) = none ∨
        resCellAbs x y (strassenF u fuel A B n) = some 0)) := by
  refine ⟨?_, ?_, ?_, ?_⟩
  · intro A B n
    rw [add]
    cases ewGo A B false n 0 (n * n) (fun _ _ => 0) with
    | ok g => exact Or.inr rfl
    | error e => exact Or.inl rfl
  · intro A B n
    rw [sub]
    cases ewGo A B true n 0 (n * n) (fun _ _ => 0) with
    | ok g => exact Or.inr rfl
    | error e => exact Or.inl rfl
  · intro u fuel A B
    cases fuel with
    | zero => exact Or.inl rfl
    | succ f =>
      rw [strassenF, if_pos rfl]
      cases hb : strassenBase A B with
      | error e => exact Or.inl rfl
      | ok C =>
        obtain ⟨h1, h2⟩ := strassenBase_shape hb
        exact Or.inr (by simp [okIJR, liftE, h1, h2])
  · intro u fuel A B n hn
    cases fuel with
    | zero => exact ⟨Or.inl rfl, fun x y hxy => Or.inl rfl⟩
    | succ f =>
      rw [strassenF, if_neg (by omega)]
      cases hr : strassenRec u (fun x y => strassenF u f x y (n / 2)) A B n with
      | error e => exact ⟨Or.inl rfl, fun x y hxy => Or.inl rfl⟩
      | ok C =>
        obtain ⟨h1, h2, h3⟩ := strassenRec_shape hr
        refine ⟨Or.inr (by simp [okIJR, h1, h2]), fun x y hxy =>
          Or.inr (by simp [resCellAbs, h3 x y hxy])⟩

/-- Witness for C10_offsets: concrete succeeding add, sub, base case and a
4x4 recursive multiplication with junk offsets (5,7). -/
theorem C10_witness :
    (okIJ (add A2 B2 2) = none ∨ okIJ (add A2 B2 2) = some (A2.i, A2.j)) ∧
    (okIJ (sub A2 B2 2) = none ∨ okIJ (sub A2 B2 2) = some (A2.i, A2.j)) ∧
    (okIJR (strassenF (3, 9) 1 A2 B2 2) = none ∨
      okIJR (strassenF (3, 9) 1 A2 B2 2) = some (A2.i, A2.j)) ∧
    (okIJR (strassenF (5, 7) 2 A4 A4 4) = none ∨
      okIJR (strassenF (5, 7) 2 A4 A4 4) = some (5, 7)) ∧
    (resCellAbs 9 0 (strassenF (5, 7) 2 A4 A4 4) = none ∨
      resCellAbs 9 0 (strassenF (5, 7) 2 A4 A4 4) = some 0) := by
  refine ⟨C10_offsets.1 A2 B2 2, C10_offsets.2.1 A2 B2 2,
    C10_offsets.2.2.1 (3, 9) 1 A2 B2, ?_, ?_⟩
  · exact (C10_offsets.2.2.2 (5, 7) 2 A4 A4 4 (by omega)).1
  · exact (C10_offsets.2.2.2 (5, 7) 2 A4 A4 4 (by omega)).2 9 0 (Or.inl (by omega))
